import Mathlib

/-!
Verification model of the AnyToolCall proxy (`index.js`).

The development shallowly embeds the tool-call transcoder of the proxy:
strings are modelled as lists of Unicode code points (`Str`), JavaScript
values appearing in message `content` fields as `Jval`, and the regex-driven
delimiter parser as an explicit scanner with the exact backtracking
semantics of the source pattern.  Random marker generation is modelled by
quantifying over the random indices (`Fin 6`, `Fin 20`, `Fin 20`).
Platform functions that are not part of the repository (JSON.parse
validity, WHATWG URL parsing, DNS lookup) are modelled explicitly where
their behaviour is fully specified (JSON grammar) and as abstract inputs
where it is not (URL parse result, DNS answer).
-/

/-- Strings are sequences of Unicode code points. -/
abbrev Str := List Char

/-- JavaScript whitespace (the `\s` class and `String.prototype.trim` set):
tab, LF, VT, FF, CR, space, NBSP, Ogham space, the U+2000..U+200A range,
LS, PS, NNBSP, MMSP, ideographic space and BOM. -/
def isJsWs (c : Char) : Bool :=
  (c == ' ') || (c == '\t') || (c == '\n') || (c == '\x0b') || (c == '\x0c') ||
  (c == '\r') || (c == ' ') || (c == ' ') ||
  (decide (' ' ≤ c) && decide (c ≤ ' ')) ||
  (c == ' ') || (c == ' ') || (c == ' ') || (c == ' ') ||
  (c == '　') || (c == '﻿')

/-- Drop leading JavaScript whitespace (maximal run). -/
def skipWs : Str → Str
  | [] => []
  | c :: t => if isJsWs c then skipWs t else c :: t

/-- JavaScript `String.prototype.trim`: strip whitespace at both ends. -/
def trimStr (s : Str) : Str :=
  (skipWs (skipWs s).reverse).reverse

/-- JavaScript `String.prototype.indexOf`: index of the first occurrence of
`pat` in the string, or `none`. -/
def idxOf? (pat : Str) : Str → Option Nat
  | [] => if pat.isPrefixOf ([] : Str) then some 0 else none
  | s@(_ :: t) => if pat.isPrefixOf s then some 0 else (idxOf? pat t).map (· + 1)

/-- Little-endian decimal digits of a positive number, fuel-bounded
(`fuel ≥ n` makes the result complete, and the callers below satisfy it). -/
def natDigitsAux : Nat → Nat → Str
  | 0, _ => []
  | _ + 1, 0 => []
  | fuel + 1, n => Nat.digitChar (n % 10) :: natDigitsAux fuel (n / 10)

/-- Decimal rendering of a natural number, matching JavaScript number
to-string conversion on naturals. -/
def natStr (n : Nat) : Str :=
  if n = 0 then ['0'] else (natDigitsAux n n).reverse

/-- Decimal rendering of an integer, matching JavaScript. -/
def intStr (n : Int) : Str :=
  if n < 0 then '-' :: natStr n.natAbs else natStr n.toNat

mutual

/-- JavaScript values that can appear in message fields (the JSON universe:
null, booleans, numbers restricted to integers, strings, arrays, objects).
Arrays and objects are represented with mutual inductives so that the
renderers below are plain structural recursions. -/
inductive Jval where
  | jnull : Jval
  | jbool (b : Bool) : Jval
  | jnum (n : Int) : Jval
  | jstr (s : Str) : Jval
  | jarr (xs : JvalList) : Jval
  | jobj (fields : JvalFields) : Jval

/-- Element list of a JSON array. -/
inductive JvalList where
  | nil : JvalList
  | cons (head : Jval) (tail : JvalList) : JvalList

/-- Member list of a JSON object. -/
inductive JvalFields where
  | nil : JvalFields
  | cons (key : Str) (val : Jval) (tail : JvalFields) : JvalFields

end

/-- Truthiness of a JavaScript value: `null`, `false`, `0` and the empty
string are falsy, every array and object is truthy. -/
def jsTruthy : Jval → Bool
  | .jnull => false
  | .jbool b => b
  | .jnum n => n != 0
  | .jstr s => s != []
  | .jarr _ => true
  | .jobj _ => true

/-- JSON string escaping as performed by `JSON.stringify` on one character. -/
def jsonEscapeChar (c : Char) : Str :=
  if c = '"' then ['\\', '"']
  else if c = '\\' then ['\\', '\\']
  else if c = '\n' then ['\\', 'n']
  else if c = '\r' then ['\\', 'r']
  else if c = '\t' then ['\\', 't']
  else if c = '\x08' then ['\\', 'b']
  else if c = '\x0c' then ['\\', 'f']
  else if c.toNat < 32 then
    '\\' :: 'u' :: '0' :: '0' :: Nat.digitChar (c.toNat / 16) :: [Nat.digitChar (c.toNat % 16)]
  else [c]

/-- Rendering of a JSON string literal with quotes and escaping. -/
def stringifyStr (s : Str) : Str :=
  '"' :: (s.map jsonEscapeChar).flatten ++ ['"']

mutual

/-- JavaScript `JSON.stringify` on a JSON value. -/
def stringify : Jval → Str
  | .jnull => "null".data
  | .jbool true => "true".data
  | .jbool false => "false".data
  | .jnum n => intStr n
  | .jstr s => stringifyStr s
  | .jarr xs => '[' :: stringifyElems xs ++ [']']
  | .jobj kvs => '\x7b' :: stringifyMembers kvs ++ ['\x7d']

/-- Comma-separated `JSON.stringify` rendering of array elements. -/
def stringifyElems : JvalList → Str
  | .nil => []
  | .cons v .nil => stringify v
  | .cons v tail => stringify v ++ ',' :: stringifyElems tail

/-- Comma-separated `JSON.stringify` rendering of object members. -/
def stringifyMembers : JvalFields → Str
  | .nil => []
  | .cons k v .nil => stringifyStr k ++ ':' :: stringify v
  | .cons k v tail => stringifyStr k ++ ':' :: stringify v ++ ',' :: stringifyMembers tail

end

mutual

/-- JavaScript string coercion of a value (`"" + v`): arrays join their
elements with commas (null rendered empty), objects render as
`[object Object]`. -/
def jsToString : Jval → Str
  | .jnull => "null".data
  | .jbool true => "true".data
  | .jbool false => "false".data
  | .jnum n => intStr n
  | .jstr s => s
  | .jobj _ => "[object Object]".data
  | .jarr xs => jsToStringElems xs

/-- Comma-joined string coercion of array elements, as
`Array.prototype.toString` produces it: `null` elements render empty. -/
def jsToStringElems : JvalList → Str
  | .nil => []
  | .cons .jnull .nil => []
  | .cons v .nil => jsToString v
  | .cons .jnull tail => ',' :: jsToStringElems tail
  | .cons v tail => jsToString v ++ ',' :: jsToStringElems tail

end

/-- JavaScript `v || ""` followed by string coercion, for an optional
content field (`undefined` and falsy values coerce to the empty string). -/
def jsOrEmptyStr : Option Jval → Str
  | none => []
  | some v => if jsTruthy v then jsToString v else []

/-- JavaScript `v + suffix` coercion for an optional field: a missing field
is `undefined` and coerces to the string `undefined`. -/
def jsAddStr : Option Jval → Str
  | none => "undefined".data
  | some v => jsToString v

/-- JavaScript `a || b` on an optional string with default: the empty
string is falsy and falls through to the default. -/
def jsOrStr : Option Str → Str → Str
  | none, d => d
  | some s, d => if s = [] then d else s

/-- JSON whitespace (the four characters allowed by `JSON.parse`). -/
def isJsonWs (c : Char) : Bool :=
  (c == ' ') || (c == '\t') || (c == '\n') || (c == '\r')

/-- Drop leading JSON whitespace. -/
def skipJsonWs : Str → Str
  | [] => []
  | c :: t => if isJsonWs c then skipJsonWs t else c :: t

/-- Hexadecimal digit test. -/
def isHexDigitC (c : Char) : Bool :=
  c.isDigit || (decide ('a' ≤ c) && decide (c ≤ 'f')) || (decide ('A' ≤ c) && decide (c ≤ 'F'))

/-- Consume a JSON string body after the opening quote; returns the rest
after the closing quote. -/
def parseJsonString : Str → Option Str
  | [] => none
  | '"' :: t => some t
  | '\\' :: e :: t =>
    if e = '"' ∨ e = '\\' ∨ e = '/' ∨ e = 'b' ∨ e = 'f' ∨ e = 'n' ∨ e = 'r' ∨ e = 't' then
      parseJsonString t
    else if e = 'u' then
      match t with
      | h1 :: h2 :: h3 :: h4 :: t4 =>
        if isHexDigitC h1 ∧ isHexDigitC h2 ∧ isHexDigitC h3 ∧ isHexDigitC h4 then
          parseJsonString t4
        else none
      | _ => none
    else none
  | c :: t => if c.toNat ≥ 32 then parseJsonString t else none

/-- Drop a maximal run of leading decimal digits. -/
def dropDigits : Str → Str
  | d :: r => if d.isDigit then dropDigits r else d :: r
  | [] => []

/-- Consume one or more decimal digits; returns the rest, or `none` if no
digit is present. -/
def parseDigits1 : Str → Option Str
  | c :: t => if c.isDigit then some (dropDigits t) else none
  | [] => none

/-- Optional exponent part of a JSON number. -/
def parseJsonExponent : Str → Option Str
  | [] => some []
  | s@(e :: rest) =>
    if e = 'e' ∨ e = 'E' then
      match rest with
      | sgn :: r2 =>
        if sgn = '+' ∨ sgn = '-' then parseDigits1 r2 else parseDigits1 rest
      | [] => none
    else some s

/-- Consume a JSON number after an optional leading minus has been
handled: `0` or a nonzero integer part, optional fraction, optional
exponent. -/
def parseJsonNumberBody (s : Str) : Option Str :=
  let intPart : Option Str :=
    match s with
    | '0' :: t => some t
    | c :: _ => if c.isDigit ∧ c ≠ '0' then parseDigits1 s else none
    | [] => none
  match intPart with
  | none => none
  | some t1 =>
    match t1 with
    | '.' :: r =>
      match parseDigits1 r with
      | none => none
      | some t2 => parseJsonExponent t2
    | _ => parseJsonExponent t1

mutual

/-- Fuel-bounded recogniser for one JSON value; returns the unconsumed
rest on success.  Mirrors the grammar accepted by `JSON.parse`. -/
def parseJsonValue : Nat → Str → Option Str
  | 0, _ => none
  | _ + 1, [] => none
  | fuel + 1, s@(c :: t) =>
    if c = 'n' then if "ull".data.isPrefixOf t then some (t.drop 3) else none
    else if c = 't' then if "rue".data.isPrefixOf t then some (t.drop 3) else none
    else if c = 'f' then if "alse".data.isPrefixOf t then some (t.drop 4) else none
    else if c = '"' then parseJsonString t
    else if c = '-' then parseJsonNumberBody t
    else if c.isDigit then parseJsonNumberBody s
    else if c = '[' then
      let t1 := skipJsonWs t
      match t1 with
      | ']' :: r => some r
      | _ => parseJsonElems fuel t1
    else if c = '\x7b' then
      let t1 := skipJsonWs t
      match t1 with
      | '\x7d' :: r => some r
      | _ => parseJsonMembers fuel t1
    else none

/-- Fuel-bounded parser for the non-empty element list of a JSON array,
positioned at the first element; consumes the closing bracket. -/
def parseJsonElems : Nat → Str → Option Str
  | 0, _ => none
  | fuel + 1, s =>
    match parseJsonValue fuel (skipJsonWs s) with
    | none => none
    | some r =>
      match skipJsonWs r with
      | ',' :: r2 => parseJsonElems fuel r2
      | ']' :: r2 => some r2
      | _ => none

/-- Fuel-bounded parser for the non-empty member list of a JSON object,
positioned at the first key; consumes the closing brace. -/
def parseJsonMembers : Nat → Str → Option Str
  | 0, _ => none
  | fuel + 1, s =>
    match skipJsonWs s with
    | '"' :: t =>
      match parseJsonString t with
      | none => none
      | some r =>
        match skipJsonWs r with
        | ':' :: r2 =>
          match parseJsonValue fuel (skipJsonWs r2) with
          | none => none
          | some r3 =>
            match skipJsonWs r3 with
            | ',' :: r4 => parseJsonMembers fuel r4
            | '\x7d' :: r4 => some r4
            | _ => none
        | _ => none
    | _ => none

end

/-- Model of `JSON.parse(s)` succeeding: the whole text is one JSON value
surrounded by optional whitespace.  The fuel `s.length + 1` always
suffices because every recursion step consumes at least one character. -/
def jsonValid (s : Str) : Bool :=
  match parseJsonValue (s.length + 1) (skipJsonWs s) with
  | some rest => skipJsonWs rest = []
  | none => false

/-! ## Delimiter system (`DELIMITER_SETS`, `SUFFIX_POOL`, `ToolCallDelimiter`) -/

/-- One row of the delimiter table: opening, closing and mid glyph.
The source fields are named `open`, `close`, `mid`; `open` is a Lean
keyword, hence the `C` suffix. -/
structure DelimSet where
  openC : Char
  closeC : Char
  midC : Char
deriving DecidableEq

/-- The six delimiter triples of the source. -/
def DELIMITER_SETS : List DelimSet :=
  [⟨'༒', '༒', '࿇'⟩, ⟨'꧁', '꧂', '࿔'⟩, ⟨'᎒', '᎒', '᎓'⟩,
   ⟨'ꆈ', 'ꆈ', 'ꊰ'⟩, ⟨'꩜', '꩜', '꩟'⟩, ⟨'ꓸ', 'ꓸ', 'ꓹ'⟩]

/-- The twenty rare CJK suffix glyphs of the source. -/
def SUFFIX_POOL : List Char :=
  ['龘', '靐', '齉', '麤', '爨', '驫', '鱻', '羴', '犇', '骉',
   '飝', '厵', '靇', '飍', '馫', '灥', '厽', '叒', '叕', '芔']

/-- The eight process-wide markers. -/
structure Markers where
  TC_START : Str
  TC_END : Str
  NAME_START : Str
  NAME_END : Str
  ARGS_START : Str
  ARGS_END : Str
  RESULT_START : Str
  RESULT_END : Str
deriving DecidableEq

/-- The delimiter row selected by a random draw. -/
def delimRow (d : Fin 6) : DelimSet := DELIMITER_SETS.get (Fin.cast (by rfl) d)

/-- The suffix glyph selected by a random draw. -/
def suffixGlyph (i : Fin 20) : Char := SUFFIX_POOL.get (Fin.cast (by rfl) i)

/-- Model of `ToolCallDelimiter.generateMarkers`: the three random draws
(`Math.random` row and two suffixes) are made explicit arguments. -/
def generateMarkers (d : Fin 6) (s1 s2 : Fin 20) : Markers :=
  let set := delimRow d
  let suffix1 := suffixGlyph s1
  let suffix2 := suffixGlyph s2
  { TC_START := [set.openC, suffix1, 'ᐅ']
    TC_END := ['ᐊ', suffix1, set.closeC]
    NAME_START := [set.midC, '▸']
    NAME_END := ['◂', set.midC]
    ARGS_START := [set.midC, '▹']
    ARGS_END := ['◃', set.midC]
    RESULT_START := [set.openC, suffix2, '⟫']
    RESULT_END := ['⟪', suffix2, set.closeC] }

/-- Every character that occurs in some marker of the set. -/
def markerChars (m : Markers) : Str :=
  m.TC_START ++ m.TC_END ++ m.NAME_START ++ m.NAME_END ++
  m.ARGS_START ++ m.ARGS_END ++ m.RESULT_START ++ m.RESULT_END

/-- The `function` member of a structured tool call. -/
structure FunctionCall where
  name : Str
  arguments : Str
deriving DecidableEq

/-- A structured tool-call record (`{id, type, function}`). -/
structure ToolCall where
  id : Str
  type : Str
  function : FunctionCall
deriving DecidableEq

/-- Identifier `call_<now>_<idx>` assigned to the `idx`-th extracted call
(`Date.now()` is modelled by the parameter `now`). -/
def callId (now idx : Nat) : Str :=
  "call_".data ++ natStr now ++ '_' :: natStr idx

/-- Strip `pat` from the front of `s`, or fail. -/
def stripPrefix? (pat s : Str) : Option Str :=
  if pat.isPrefixOf s then some (s.drop pat.length) else none

/-- One candidate split of the lazy args group at length `k`: `ARGS_END`
must follow, then maximal whitespace, then `TC_END`; `tn` is the
already-fixed name capture. -/
def argsStep (m : Markers) (tn v : Str) (k : Nat) : Option (Str × Str × Str) :=
  match stripPrefix? m.ARGS_END (v.drop k) with
  | none => none
  | some w =>
    match stripPrefix? m.TC_END (skipWs w) with
    | none => none
    | some rest => some (tn, v.take k, rest)

/-- Lazy search for the args capture: the least split of `v` at an
`ARGS_END` occurrence whose continuation matches. -/
def argsSearch (m : Markers) (tn v : Str) : Option (Str × Str × Str) :=
  (List.range (v.length + 1)).findSome? (argsStep m tn v)

/-- One candidate split of the lazy name group at length `n`: `NAME_END`
must follow, then maximal whitespace, `ARGS_START`, and the args
search. -/
def nameStep (m : Markers) (t : Str) (n : Nat) : Option (Str × Str × Str) :=
  match stripPrefix? m.NAME_END (t.drop n) with
  | none => none
  | some u =>
    match stripPrefix? m.ARGS_START (skipWs u) with
    | none => none
    | some v => argsSearch m (t.take n) v

/-- Lazy search for the name capture: the least split of `t` at a
`NAME_END` occurrence whose continuation matches. -/
def nameSearch (m : Markers) (t : Str) : Option (Str × Str × Str) :=
  (List.range (t.length + 1)).findSome? (nameStep m t)

/-- Match the tail of one tool-call envelope.  The input is the text
immediately following an occurrence of `TC_START`; the result is the raw
name capture, the raw args capture and the rest of the text after
`TC_END`.  Together with `nameSearch` and `argsSearch` this reproduces
the backtracking semantics of the source regex
`TC_START \s* NAME_START ([\s\S]*?) NAME_END \s* ARGS_START ([\s\S]*?)
ARGS_END \s* TC_END`: the two lazy groups take the least lengths for
which the whole remainder matches (searched in increasing order), and
each `\s*` consumes the maximal whitespace run, which is the only
possibility because `NAME_START`, `ARGS_START` and `TC_END` all begin
with a non-whitespace character for every generated marker set. -/
def matchEnvelope (m : Markers) (s : Str) : Option (Str × Str × Str) :=
  match stripPrefix? m.NAME_START (skipWs s) with
  | none => none
  | some t => nameSearch m t

/-- Global scan of the content for envelope matches, reproducing the
`regex.exec` loop with the `g` flag: at each position, if the full
pattern matches, the match is consumed whole; otherwise one character
goes to the residue and scanning resumes at the next position.  The
residue is the text with every match removed, exactly what
`content.replace(regex, "")` produces.  The fuel is instantiated with
the text length, which suffices because every step consumes at least one
character (`TC_START` is nonempty for every generated marker set, which
the `≠ []` conjunct makes explicit for termination). -/
def scanText (m : Markers) : Nat → Str → List (Str × Str) × Str
  | _, [] => ([], [])
  | 0, s => ([], s)
  | fuel + 1, s@(c :: t) =>
    if m.TC_START ≠ [] ∧ m.TC_START.isPrefixOf s then
      match matchEnvelope m (s.drop m.TC_START.length) with
      | some (n, a, rest) =>
        let p := scanText m fuel rest
        ((n, a) :: p.1, p.2)
      | none =>
        let p := scanText m fuel t
        (p.1, c :: p.2)
    else
      let p := scanText m fuel t
      (p.1, c :: p.2)

/-- Model of `ToolCallDelimiter.parse`: scan for envelope matches, trim
the captures, drop matches whose arguments fail `JSON.parse`, number the
surviving calls, and return them with the match-free residue trimmed. -/
def ToolCallDelimiter.parse (m : Markers) (now : Nat) (content : Str) :
    List ToolCall × Str :=
  let scanned := scanText m content.length content
  let trimmed := scanned.1.map fun p => (trimStr p.1, trimStr p.2)
  let valid := trimmed.filter fun p => jsonValid p.2
  let toolCalls := valid.enum.map fun q =>
    { id := callId now q.1, type := "function".data
      function := { name := q.2.1, arguments := q.2.2 } }
  (toolCalls, trimStr scanned.2)

/-- One encoded envelope, from `TC_START` through `TC_END`, as the request
transcoder writes it (and as the system prompt instructs the model). -/
def encodeEnvelope (m : Markers) (name args : Str) : Str :=
  m.TC_START ++ '\n' :: m.NAME_START ++ name ++ m.NAME_END ++ '\n' ::
  m.ARGS_START ++ args ++ m.ARGS_END ++ '\n' :: m.TC_END

/-- The text appended to assistant content for one prior tool call
(`"\n" + TC_START + ...` in `transformRequest`). -/
def encodeToolCall (m : Markers) (tc : ToolCall) : Str :=
  '\n' :: encodeEnvelope m tc.function.name tc.function.arguments

/-- The delimiter encoding of a whole tool-call list, as the request
transcoder appends it. -/
def encodeToolCalls (m : Markers) (tcs : List ToolCall) : Str :=
  (tcs.map (encodeToolCall m)).flatten

/-! ## Request-side data model and transcoder (`transformRequest`) -/

/-- A chat message.  The transcoder reads exactly these fields; `content`
ranges over arbitrary JSON values as in the wire format. -/
structure Message where
  role : Str
  content : Option Jval
  tool_calls : Option (List ToolCall)
  name : Option Str
  tool_call_id : Option Str

/-- The `function` member of a declared tool. -/
structure ToolFunctionSpec where
  name : Str
  description : Option Str
  parameters : Jval

/-- A declared tool specification. -/
structure ToolSpec where
  function : ToolFunctionSpec

/-- A chat-completions request: the fields the transcoder touches, plus an
opaque `rest` for every other field (which the source spreads through
unchanged). -/
structure ChatRequest where
  messages : List Message
  tools : Option (List ToolSpec)
  tool_choice : Option Jval
  rest : List (Str × Jval)

/-- Truthiness of `msg.tool_calls?.length`: present and non-empty. -/
def hasToolCallsB (msg : Message) : Bool :=
  match msg.tool_calls with
  | some (_ :: _) => true
  | _ => false

/-- Model of `ToolCallDelimiter.getSystemPrompt`: the protocol contract
text, with the braces of the embedded JSON examples written as escapes. -/
def getSystemPrompt (m : Markers) (tools : List ToolSpec) : Str :=
  "\n## Tool Calling (AnyToolCall Protocol)\n\nYou have access to the following tools:\n".data
  ++ (List.intercalate "\n".data (tools.map fun t =>
       "- **".data ++ t.function.name ++ "**: ".data
       ++ jsOrStr t.function.description "No description".data
       ++ "\n  Parameters: ".data ++ stringify t.function.parameters))
  ++ "\n\n### How to call tools\n\nWhen you need to call a tool, use this EXACT format at the END of your response:\n\n".data
  ++ m.TC_START ++ '\n' :: m.NAME_START ++ "function_name".data ++ m.NAME_END ++ '\n' ::
  m.ARGS_START ++ "\x7b\"param\": \"value\"\x7d".data ++ m.ARGS_END ++ '\n' :: m.TC_END
  ++ "\n\n### Example\n\nI\x27ll search for that information:\n\n".data
  ++ m.TC_START ++ '\n' :: m.NAME_START ++ "web_search".data ++ m.NAME_END ++ '\n' ::
  m.ARGS_START ++ "\x7b\"query\": \"example\", \"limit\": 5\x7d".data ++ m.ARGS_END ++ '\n' :: m.TC_END
  ++ "\n\n### Rules\n\n1. Tool calls MUST be at the END of your response\n2. Copy the delimiters EXACTLY as shown above\n3. Arguments must be valid JSON\n4. One tool per block\n\n### Tool Results\n\nResults appear in ".data
  ++ m.RESULT_START ++ "...".data ++ m.RESULT_END ++ " blocks.\n".data

/-- Loop body of `mergeAdjacentMessages`: `current` is the message being
accumulated; on a role match the contents are joined with a blank line
(JavaScript `(a || "") + "\n\n" + (b || "")`), keeping the other fields
of `current`. -/
def mergeLoop (current : Message) : List Message → List Message
  | [] => [current]
  | msg :: rest =>
    if msg.role = current.role then
      let joined : Str := jsOrEmptyStr current.content ++ '\n' :: '\n' :: jsOrEmptyStr msg.content
      mergeLoop { current with content := some (.jstr joined) } rest
    else
      current :: mergeLoop msg rest

/-- Model of `mergeAdjacentMessages`: collapse runs of equal-role
messages. -/
def mergeAdjacentMessages : List Message → List Message
  | [] => []
  | m0 :: rest => mergeLoop m0 rest

/-- One iteration of the `transformRequest` message loop (the source
inlines this in a `for` over `request.messages`; every branch pushes
exactly one message). -/
def rewriteMsg (m : Markers) (hasTools : Bool) (toolSystemPrompt : Str) (msg : Message) :
    Message :=
  if msg.role = "system".data then
    { role := "system".data
      content := some (.jstr (jsAddStr msg.content ++
        (if toolSystemPrompt ≠ [] then '\n' :: '\n' :: toolSystemPrompt else [])))
      tool_calls := none, name := none, tool_call_id := none }
  else if msg.role = "assistant".data ∧ hasToolCallsB msg then
    let tcs := msg.tool_calls.getD []
    let base := jsOrEmptyStr msg.content
    let content :=
      if hasTools then
        base ++ encodeToolCalls m tcs
      else
        base ++ "\n\n[Called tools: ".data
          ++ List.intercalate ", ".data (tcs.map fun tc => tc.function.name) ++ "]".data
    { role := "assistant".data, content := some (.jstr content)
      tool_calls := none, name := none, tool_call_id := none }
  else if msg.role = "tool".data then
    let name := jsOrStr msg.name (jsOrStr msg.tool_call_id "unknown".data)
    let result : Str :=
      match msg.content with
      | some (.jstr s) => s
      | some v => stringify v
      | none => "undefined".data
    let content :=
      if hasTools then
        m.RESULT_START ++ '[' :: name ++ ']' :: '\n' :: result ++ m.RESULT_END
      else
        "[Result from ".data ++ name ++ ']' :: ':' :: '\n' :: result
    { role := "user".data, content := some (.jstr content)
      tool_calls := none, name := none, tool_call_id := none }
  else msg

/-- Model of `transformRequest`: rewrite every message, prepend a system
message when none was present but a tool prompt exists, merge adjacent
equal-role messages, and delete `tools` and `tool_choice`. -/
def transformRequest (m : Markers) (request : ChatRequest) (hasTools : Bool) : ChatRequest :=
  let tools := request.tools.getD []
  let toolSystemPrompt := if hasTools && !tools.isEmpty then getSystemPrompt m tools else []
  let hasSystem := request.messages.any fun msg => msg.role == "system".data
  let rewritten := request.messages.map (rewriteMsg m hasTools toolSystemPrompt)
  let withSystem :=
    if ¬hasSystem ∧ toolSystemPrompt ≠ [] then
      ({ role := "system".data, content := some (.jstr toolSystemPrompt)
         tool_calls := none, name := none, tool_call_id := none } : Message) :: rewritten
    else rewritten
  { request with
    messages := mergeAdjacentMessages withSystem,
    tools := none, tool_choice := none }

/-! ## Streaming transcoder (`createStreamTransformer`, `processLine`) -/

/-- One complete SSE line after framing, classified as the source's
`processLine` does: blank (trims to nothing), the `data: [DONE]`
sentinel, a data line whose JSON payload carries a string
`delta.content`, or anything else (non-`data:` lines, unparseable JSON,
payloads without content), which is ignored. -/
inductive SSELine where
  | blank : SSELine
  | done : SSELine
  | content (c : Str) : SSELine
  | other : SSELine

/-- A downstream chunk, abstracting the serialized SSE frame by its
payload: a content delta, one `tool_calls` delta with its array `index`,
a finish chunk, or the `data: [DONE]` sentinel.  Timestamps and chunk
ids carry no information relevant to the claims and are omitted. -/
inductive OutChunk where
  | text (s : Str) : OutChunk
  | toolDelta (index : Nat) (tc : ToolCall) : OutChunk
  | finish (reason : Str) : OutChunk
  | done : OutChunk
deriving DecidableEq

/-- Per-request state of the stream transformer (the `lineBuffer` of the
source belongs to byte framing, which the line-level model abstracts). -/
structure StreamState where
  contentBuffer : Str
  isBuffering : Bool
  pendingText : Str
  streamEnded : Bool
deriving DecidableEq

/-- Initial transformer state. -/
def initStreamState : StreamState := ⟨[], false, [], false⟩

/-- Model of `textChunk` plus the `if (tc) push(tc)` guard: empty text
produces no chunk. -/
def textChunkOut (s : Str) : List OutChunk :=
  if s = [] then [] else [.text s]

/-- Model of `toolCallChunks`: one `tool_calls` delta per call, indexed in
order. -/
def toolCallChunks (tcs : List ToolCall) : List OutChunk :=
  tcs.enum.map fun p => .toolDelta p.1 p.2

/-- The terminal emission sequence shared by the `[DONE]` branch of
`processLine` and the transform flush: flush `pendingText`, parse
`contentBuffer` and emit its residue and calls (or a plain stop), then
the sentinel. -/
def terminalOut (m : Markers) (now : Nat) (st : StreamState) : List OutChunk :=
  textChunkOut st.pendingText ++
  (if st.contentBuffer ≠ [] then
    let pr := ToolCallDelimiter.parse m now st.contentBuffer
    textChunkOut pr.2 ++
    (if pr.1 ≠ [] then toolCallChunks pr.1 ++ [.finish "tool_calls".data]
     else [.finish "stop".data])
  else [.finish "stop".data]) ++ [.done]

/-- Model of `processLine` on one classified line: the `[DONE]` branch
runs the terminal sequence and clears the buffers; a content delta is
buffered while inside a suspected envelope, otherwise searched for
`TC_START`, holding the whole combined text when it merely contains the
first marker character. -/
def processLine (m : Markers) (now : Nat) (line : SSELine) (st : StreamState) :
    StreamState × List OutChunk :=
  match line with
  | .blank => (st, [])
  | .other => (st, [])
  | .done =>
    ({ st with pendingText := [], contentBuffer := [], streamEnded := true },
     terminalOut m now st)
  | .content c =>
    if st.isBuffering then
      ({ st with contentBuffer := st.contentBuffer ++ c }, [])
    else
      let combined := st.pendingText ++ c
      match idxOf? m.TC_START combined with
      | some k =>
        ({ st with pendingText := [], contentBuffer := combined.drop k, isBuffering := true },
         textChunkOut (combined.take k))
      | none =>
        if combined.contains (m.TC_START.headD ' ') then
          ({ st with pendingText := combined }, [])
        else
          ({ st with pendingText := [] }, textChunkOut combined)

/-- Fold `processLine` over a list of classified lines, accumulating the
emitted chunks. -/
def feedLines (m : Markers) (now : Nat) : StreamState → List SSELine → StreamState × List OutChunk
  | st, [] => (st, [])
  | st, l :: rest =>
    let p := processLine m now l st
    let q := feedLines m now p.1 rest
    (q.1, p.2 ++ q.2)

/-- The transform flush callback at line level: nothing if the stream
already ended at a `[DONE]`, otherwise the terminal sequence. -/
def flushOut (m : Markers) (now : Nat) (st : StreamState) : List OutChunk :=
  if st.streamEnded then [] else terminalOut m now st

/-- A whole streaming pass: feed every line, then flush. -/
def runStream (m : Markers) (now : Nat) (lines : List SSELine) : List OutChunk :=
  let p := feedLines m now initStreamState lines
  p.2 ++ flushOut m now p.1

/-- Concatenation of the downstream content deltas of an emission list. -/
def outTexts (outs : List OutChunk) : Str :=
  (outs.map fun o => match o with | .text s => s | _ => []).flatten

/-! ## HTTP edge: upstream extraction and SSRF validation -/

/-- JavaScript regex line terminators (which `.` does not match). -/
def isLineTerm (c : Char) : Bool :=
  (c == '\n') || (c == '\r') || (c == ' ') || (c == ' ')

/-- Model of `extractUpstream`: the request path matches
`^\/(https?:\/\/.+)$` and the first capture group is returned.  The
`.+` part must be non-empty and free of line terminators. -/
def extractUpstream (reqUrl : Str) : Option Str :=
  match reqUrl with
  | '/' :: u =>
    if "https://".data.isPrefixOf u then
      let r := u.drop 8
      if r ≠ [] ∧ r.all (fun c => ¬ isLineTerm c) then some u else none
    else if "http://".data.isPrefixOf u then
      let r := u.drop 7
      if r ≠ [] ∧ r.all (fun c => ¬ isLineTerm c) then some u else none
    else none
  | _ => none

/-- Relevant output of the WHATWG URL parser (`new URL(...)`), an external
platform function modelled as data: scheme including the trailing colon,
and the (lowercased) hostname. -/
structure URLParts where
  protocol : Str
  hostname : Str

/-- Result of `validateUpstream`. -/
inductive Validation where
  | valid : Validation
  | invalid (error : Str) : Validation
deriving DecidableEq

/-- JavaScript `Number(s)` on the fragments produced by splitting an IP
address on dots: the empty string is `0`, digit strings are their value,
anything else is `NaN` (`none`), whose comparisons are all false. -/
def jsNum (s : Str) : Option Int :=
  if s = [] then some 0
  else if s.all Char.isDigit then
    some (Int.ofNat (s.foldl (fun a c => a * 10 + (c.toNat - 48)) 0))
  else none

/-- The `parts[1] >= 16 && parts[1] <= 31` test, false on `NaN`. -/
def inRange16To31 : Option Int → Bool
  | some x => decide (16 ≤ x) && decide (x ≤ 31)
  | none => false

/-- Model of `validateUpstream`.  The URL parse result and the DNS answer
(`none` models a lookup that throws, which the source swallows) are
abstract inputs. -/
def validateUpstream (allowLocalNet : Bool) (upstreamUrl : Option Str)
    (parsed : Option URLParts) (dnsAnswer : Option Str) : Validation :=
  match upstreamUrl with
  | none => .invalid "Missing upstream URL".data
  | some _ =>
    match parsed with
    | none => .invalid "Invalid URL format".data
    | some p =>
      if p.protocol ≠ "http:".data ∧ p.protocol ≠ "https:".data then
        .invalid "Invalid protocol (http/https only)".data
      else if allowLocalNet then .valid
      else if p.hostname = "localhost".data ∨ p.hostname = "127.0.0.1".data ∨
              p.hostname = "::1".data ∨ p.hostname = "0.0.0.0".data then
        .invalid "Localhost access denied (Set ALLOW_LOCAL_NET=true to enable)".data
      else
        match dnsAnswer with
        | none => .valid
        | some addr =>
          match (List.splitOn '.' addr).map jsNum with
          | [a, b, c, d] =>
            let _ := c
            let _ := d
            if a = some 10 then .invalid "Private IP range (10.x.x.x) denied".data
            else if a = some 172 ∧ inRange16To31 b then
              .invalid "Private IP range (172.16-31.x.x) denied".data
            else if a = some 192 ∧ b = some 168 then
              .invalid "Private IP range (192.168.x.x) denied".data
            else if a = some 127 then .invalid "Loopback IP denied".data
            else .valid
          | _ => .valid

/-- The error body shape of a blocked request. -/
structure ErrorBody where
  message : Str
  type : Str
deriving DecidableEq

/-- The SSRF gate at the top of `handleRequest`: a failed validation is
answered immediately with status 403 and the security-error body, and the
upstream is never contacted; `none` means the request proceeds. -/
def ssrfGate (allowLocalNet : Bool) (reqUrl : Str)
    (parsed : Option URLParts) (dnsAnswer : Option Str) : Option (Nat × ErrorBody) :=
  match validateUpstream allowLocalNet (extractUpstream reqUrl) parsed dnsAnswer with
  | .valid => none
  | .invalid e => some (403, ⟨"Access denied: ".data ++ e, "security_error".data⟩)

/-! ## Non-streaming response transcoder -/

/-- The message of a response choice. -/
structure RespMessage where
  content : Option Str
  tool_calls : Option (List ToolCall)
  rest : List (Str × Jval)

/-- One response choice. -/
structure RespChoice where
  message : RespMessage
  finish_reason : Option Str
  rest : List (Str × Jval)

/-- An upstream chat-completions response: the first choice is the one the
source may rewrite; everything else is opaque and preserved. -/
structure Response where
  choices : List RespChoice
  rest : List (Str × Jval)

/-- Model of the non-streaming branch of `handleRequest`: when the request
declared tools and the first choice has truthy content, parse it; if any
tool call was extracted, attach the list, replace the content by the
residue (or `null` when empty) and force `finish_reason` to
`tool_calls`; otherwise pass the response through unchanged. -/
def transformResponse (m : Markers) (now : Nat) (hasTools : Bool) (data : Response) :
    Response :=
  if hasTools then
    match data.choices with
    | [] => data
    | ch :: tailChoices =>
      match ch.message.content with
      | none => data
      | some s =>
        if s ≠ [] then
          let pr := ToolCallDelimiter.parse m now s
          if pr.1 ≠ [] then
            { data with choices :=
                { ch with
                  message := { ch.message with
                    tool_calls := some pr.1
                    content := if pr.2 ≠ [] then some pr.2 else none }
                  finish_reason := some "tool_calls".data } :: tailChoices }
          else data
        else data
  else data

/-! ## Statement-level helpers -/

/-- Concatenation of the `delta.content` strings of an upstream line
list. -/
def lineContents (lines : List SSELine) : Str :=
  (lines.map fun l => match l with | .content c => c | _ => []).flatten

/-- A line that is not the `[DONE]` sentinel. -/
def notDone : SSELine → Bool
  | .done => false
  | _ => true

/-- String projection of a message content. -/
def contentStrOf (msg : Message) : Option Str :=
  match msg.content with
  | some (.jstr s) => some s
  | _ => none

/-- Whether a message consists of a role and a string content only (no
tool fields), the shape the transcoder itself emits. -/
def plainStrMessage (msg : Message) : Bool :=
  (match msg.content with | some (.jstr _) => true | _ => false) &&
  msg.tool_calls.isNone && msg.name.isNone && msg.tool_call_id.isNone

/-- The eight markers as a list, in the order of the record. -/
def markerList (m : Markers) : List Str :=
  [m.TC_START, m.TC_END, m.NAME_START, m.NAME_END,
   m.ARGS_START, m.ARGS_END, m.RESULT_START, m.RESULT_END]

/-- Marker-set invariant of the spec: pairwise no marker is a prefix of
another, no marker contains an ASCII code point, and every marker has at
least two code points. -/
def markersOk (m : Markers) : Bool :=
  (markerList m).enum.all (fun p =>
    (markerList m).enum.all fun q =>
      p.1 == q.1 || !(p.2.isPrefixOf q.2)) &&
  (markerList m).all (fun s => s.all fun c => c.toNat ≥ 128) &&
  (markerList m).all (fun s => s.length ≥ 2)

/-- Membership of a character in any marker of the set. -/
def inMarkerChars (m : Markers) (c : Char) : Bool :=
  decide (c ∈ markerChars m)

/-! ## Foundational lemmas -/

theorem isPrefixOf_iff {p s : Str} : p.isPrefixOf s = true ↔ p <+: s :=
  List.isPrefixOf_iff_prefix

theorem stripPrefix?_eq_some_iff {p s r : Str} :
    stripPrefix? p s = some r ↔ s = p ++ r := by
  unfold stripPrefix?
  constructor
  · intro h
    by_cases hp : p.isPrefixOf s
    · simp only [hp, if_true, Option.some.injEq] at h
      rcases isPrefixOf_iff.mp hp with ⟨t, rfl⟩
      rw [List.drop_left] at h
      rw [← h]
    · simp [hp] at h
  · rintro rfl
    have hp : p.isPrefixOf (p ++ r) = true := isPrefixOf_iff.mpr (List.prefix_append p r)
    simp [hp, List.drop_left]

theorem stripPrefix?_append (p r : Str) : stripPrefix? p (p ++ r) = some r :=
  stripPrefix?_eq_some_iff.mpr rfl


theorem stripPrefix?_eq_none_iff {p s : Str} :
    stripPrefix? p s = none ↔ ¬ p <+: s := by
  unfold stripPrefix?
  by_cases hp : p.isPrefixOf s = true
  · rw [if_pos hp]
    simp [isPrefixOf_iff.mp hp]
  · rw [if_neg hp]
    simp only [true_iff]
    exact fun hc => hp (isPrefixOf_iff.mpr hc)

theorem skipWs_nil : skipWs [] = [] := rfl

theorem skipWs_cons_ws {c : Char} (hc : isJsWs c = true) (s : Str) :
    skipWs (c :: s) = skipWs s := by
  simp [skipWs, hc]

theorem skipWs_cons_not_ws {c : Char} (hc : isJsWs c = false) (s : Str) :
    skipWs (c :: s) = c :: s := by
  simp [skipWs, hc]

theorem skipWs_suffix (s : Str) : skipWs s <:+ s := by
  induction s with
  | nil => exact List.suffix_refl []
  | cons c t ih =>
    by_cases hc : isJsWs c = true
    · rw [skipWs_cons_ws hc]
      exact ih.trans (List.suffix_cons c t)
    · rw [skipWs_cons_not_ws (by simpa using hc)]

theorem skipWs_length_le (s : Str) : (skipWs s).length ≤ s.length :=
  (skipWs_suffix s).length_le

theorem skipWs_nl (s : Str) : skipWs ('\n' :: s) = skipWs s :=
  skipWs_cons_ws (by decide) s

theorem skipWs_all_ws {s : Str} (h : ∀ c ∈ s, isJsWs c = true) : skipWs s = [] := by
  induction s with
  | nil => rfl
  | cons c t ih =>
    rw [skipWs_cons_ws (h c (List.mem_cons_self c t))]
    exact ih fun x hx => h x (List.mem_cons_of_mem c hx)

theorem trimStr_all_ws {s : Str} (h : ∀ c ∈ s, isJsWs c = true) : trimStr s = [] := by
  unfold trimStr
  rw [skipWs_all_ws h, List.reverse_nil, skipWs_nil, List.reverse_nil]

theorem trimStr_nil : trimStr [] = [] := rfl

theorem idxOf?_nil_of_ne {p : Str} (hp : p ≠ []) : idxOf? p [] = none := by
  unfold idxOf?
  rw [if_neg]
  intro hc
  exact hp (List.prefix_nil.mp (isPrefixOf_iff.mp hc))

theorem idxOf?_eq_none_iff {p s : Str} : idxOf? p s = none ↔ ¬ p <:+: s := by
  induction s with
  | nil =>
    by_cases hpn : p = []
    · subst hpn
      unfold idxOf?
      rw [if_pos (isPrefixOf_iff.mpr (List.prefix_refl []))]
      simp
    · rw [idxOf?_nil_of_ne hpn]
      simp only [true_iff]
      intro hc
      exact hpn (List.eq_nil_of_infix_nil hc)
  | cons c t ih =>
    unfold idxOf?
    by_cases hp : p.isPrefixOf (c :: t) = true
    · rw [if_pos hp]
      have hinf : p <:+: c :: t := (isPrefixOf_iff.mp hp).isInfix
      simp [hinf]
    · rw [if_neg hp]
      have hnp : ¬ p <+: c :: t := fun hc => hp (isPrefixOf_iff.mpr hc)
      cases hidx : idxOf? p t with
      | none =>
        have hnt : ¬ p <:+: t := ih.mp hidx
        simp only [Option.map_none', true_iff]
        rw [List.infix_cons_iff]
        tauto
      | some j =>
        have hinf : p <:+: t := by
          by_contra hc
          have h0 := ih.mpr hc
          rw [hidx] at h0
          exact Option.noConfusion h0
        simp only [Option.map_some']
        constructor
        · intro h
          exact Option.noConfusion h
        · intro hni
          exact absurd (List.infix_cons_iff.mpr (Or.inr hinf)) hni

theorem idxOf?_eq_some_iff {p s : Str} {k : Nat} :
    idxOf? p s = some k ↔ (p <+: s.drop k ∧ ∀ i < k, ¬ p <+: s.drop i) := by
  induction s generalizing k with
  | nil =>
    by_cases hpn : p = []
    · subst hpn
      unfold idxOf?
      rw [if_pos (isPrefixOf_iff.mpr (List.prefix_refl []))]
      constructor
      · intro h
        injection h with h
        subst h
        exact ⟨List.nil_prefix, fun i hi => (Nat.not_lt_zero i hi).elim⟩
      · rintro ⟨_, h2⟩
        have hk : k = 0 := by
          by_contra hk0
          exact h2 0 (Nat.pos_of_ne_zero hk0) List.nil_prefix
        rw [hk]
    · rw [idxOf?_nil_of_ne hpn]
      constructor
      · intro h
        exact Option.noConfusion h
      · rintro ⟨h1, _⟩
        rw [List.drop_nil] at h1
        exact (hpn (List.prefix_nil.mp h1)).elim
  | cons c t ih =>
    unfold idxOf?
    by_cases hp : p.isPrefixOf (c :: t) = true
    · rw [if_pos hp]
      constructor
      · intro h
        injection h with h
        subst h
        refine ⟨?_, fun i hi => (Nat.not_lt_zero i hi).elim⟩
        rw [List.drop_zero]
        exact isPrefixOf_iff.mp hp
      · rintro ⟨_, h2⟩
        have hk : k = 0 := by
          by_contra hk0
          refine h2 0 (Nat.pos_of_ne_zero hk0) ?_
          rw [List.drop_zero]
          exact isPrefixOf_iff.mp hp
        rw [hk]
    · rw [if_neg hp]
      have hnp : ¬ p <+: c :: t := fun hc => hp (isPrefixOf_iff.mpr hc)
      cases k with
      | zero =>
        constructor
        · intro h
          cases hidx : idxOf? p t with
          | none =>
            rw [hidx] at h
            exact Option.noConfusion h
          | some j =>
            rw [hidx] at h
            simp only [Option.map_some'] at h
            injection h with h
            omega
        · rintro ⟨h1, _⟩
          rw [List.drop_zero] at h1
          exact absurd h1 hnp
      | succ k2 =>
        have hmap : Option.map (fun x => x + 1) (idxOf? p t) = some (k2 + 1) ↔
            idxOf? p t = some k2 := by
          cases hidx : idxOf? p t with
          | none => simp
          | some j =>
            simp only [Option.map_some', Option.some.injEq]
            omega
        rw [hmap, ih]
        constructor
        · rintro ⟨h1, h2⟩
          refine ⟨?_, ?_⟩
          · rw [List.drop_succ_cons]
            exact h1
          · intro i hi
            cases i with
            | zero =>
              rw [List.drop_zero]
              exact hnp
            | succ i2 =>
              rw [List.drop_succ_cons]
              exact h2 i2 (by omega)
        · rintro ⟨h1, h2⟩
          rw [List.drop_succ_cons] at h1
          refine ⟨h1, fun i hi => ?_⟩
          have h3 := h2 (i + 1) (by omega)
          rw [List.drop_succ_cons] at h3
          exact h3

theorem findSome?_range_first {β : Type} (n : Nat) {f : Nat → Option β} {N : Nat} {b : β}
    (hnN : n < N) (hnone : ∀ i < n, f i = none) (hn : f n = some b) :
    (List.range N).findSome? f = some b := by
  induction n generalizing f N with
  | zero =>
    cases N with
    | zero => omega
    | succ N2 =>
      rw [List.range_succ_eq_map, List.findSome?_cons, hn]
  | succ n2 ih =>
    cases N with
    | zero => omega
    | succ N2 =>
      rw [List.range_succ_eq_map, List.findSome?_cons, hnone 0 (by omega),
        List.findSome?_map]
      exact ih (by omega) (fun i hi => hnone (i + 1) (by omega)) hn

/-! ## Lemmas about the envelope matcher -/

theorem stripPrefix?_suffix {p s r : Str} (h : stripPrefix? p s = some r) : r <:+ s := by
  rw [stripPrefix?_eq_some_iff] at h
  rw [h]
  exact List.suffix_append p r

theorem argsStep_eq_some {m : Markers} {tn v n a rest : Str} {k : Nat}
    (h : argsStep m tn v k = some (n, a, rest)) :
    n = tn ∧ a = v.take k ∧ rest <:+ v := by
  unfold argsStep at h
  split at h
  · exact Option.noConfusion h
  · rename_i w hw
    split at h
    · exact Option.noConfusion h
    · rename_i r2 hr2
      injection h with h
      obtain ⟨h1, h2, h3⟩ : tn = n ∧ v.take k = a ∧ r2 = rest := by
        have e1 := congrArg (fun q : Str × Str × Str => q.1) h
        have e2 := congrArg (fun q : Str × Str × Str => q.2.1) h
        have e3 := congrArg (fun q : Str × Str × Str => q.2.2) h
        exact ⟨e1, e2, e3⟩
      refine ⟨h1.symm, h2.symm, ?_⟩
      rw [← h3]
      exact ((stripPrefix?_suffix hr2).trans (skipWs_suffix w)).trans
        ((stripPrefix?_suffix hw).trans (List.drop_suffix k v))

theorem argsSearch_rest_suffix {m : Markers} {tn v n a rest : Str}
    (h : argsSearch m tn v = some (n, a, rest)) : rest <:+ v := by
  unfold argsSearch at h
  rcases List.exists_of_findSome?_eq_some h with ⟨kk, _, hg⟩
  exact (argsStep_eq_some hg).2.2

theorem nameSearch_rest_suffix {m : Markers} {t n a rest : Str}
    (h : nameSearch m t = some (n, a, rest)) : rest <:+ t := by
  unfold nameSearch at h
  rcases List.exists_of_findSome?_eq_some h with ⟨nn, _, hf⟩
  unfold nameStep at hf
  split at hf
  · exact Option.noConfusion hf
  · rename_i u hu
    split at hf
    · exact Option.noConfusion hf
    · rename_i v hv
      have hvt : v <:+ t :=
        ((stripPrefix?_suffix hv).trans (skipWs_suffix u)).trans
          ((stripPrefix?_suffix hu).trans (List.drop_suffix nn t))
      exact (argsSearch_rest_suffix hf).trans hvt

theorem matchEnvelope_rest_suffix {m : Markers} {s n a rest : Str}
    (h : matchEnvelope m s = some (n, a, rest)) : rest <:+ s := by
  unfold matchEnvelope at h
  split at h
  · exact Option.noConfusion h
  · rename_i t ht
    exact (nameSearch_rest_suffix h).trans
      ((stripPrefix?_suffix ht).trans (skipWs_suffix s))

theorem matchEnvelope_rest_length_le {m : Markers} {s n a rest : Str}
    (h : matchEnvelope m s = some (n, a, rest)) : rest.length ≤ s.length :=
  (matchEnvelope_rest_suffix h).length_le

/-- Dropping fewer elements than a clean prefix leaves a head that rules
out a marker prefix: used for the minimality side of the lazy groups. -/
theorem not_prefix_drop_of_head_notin {pat : Str} {ph : Char} {pt : Str}
    (hpat : pat = ph :: pt) {a b : Str} {i : Nat} (hi : i < a.length)
    (hnotin : ∀ c ∈ a, c ≠ ph) : ¬ pat <+: (a ++ b).drop i := by
  rw [List.drop_append_of_le_length (by omega), List.drop_eq_getElem_cons hi, hpat]
  rw [List.cons_append, List.cons_prefix_cons]
  rintro ⟨rfl, -⟩
  exact hnotin _ (List.getElem_mem hi) rfl

theorem argsSearch_encode (m : Markers) {ash tch aeh : Char} {ast tct aet : Str}
    (hAS : m.ARGS_START = ash :: ast) (hASw : isJsWs ash = false)
    (hTC : m.TC_END = tch :: tct) (hTCw : isJsWs tch = false)
    (hAE : m.ARGS_END = aeh :: aet)
    (tn args suf : Str)
    (hargs : ∀ c ∈ args, c ≠ aeh) :
    argsSearch m tn (args ++ (m.ARGS_END ++ ('\n' :: (m.TC_END ++ suf)))) =
    some (tn, args, suf) := by
  unfold argsSearch
  refine findSome?_range_first args.length (by simp; omega) ?_ ?_
  · intro i hi
    unfold argsStep
    rw [stripPrefix?_eq_none_iff.mpr (not_prefix_drop_of_head_notin hAE hi hargs)]
  · unfold argsStep
    rw [List.drop_left, stripPrefix?_append]
    dsimp only
    rw [skipWs_nl, hTC, List.cons_append, skipWs_cons_not_ws hTCw, ← List.cons_append,
      ← hTC, stripPrefix?_append]
    dsimp only
    rw [List.take_left]

theorem nameSearch_encode (m : Markers) {nsh ash tch neh aeh : Char}
    {nst ast tct net aet : Str}
    (hNS : m.NAME_START = nsh :: nst) (hNSw : isJsWs nsh = false)
    (hNE : m.NAME_END = neh :: net)
    (hAS : m.ARGS_START = ash :: ast) (hASw : isJsWs ash = false)
    (hTC : m.TC_END = tch :: tct) (hTCw : isJsWs tch = false)
    (hAE : m.ARGS_END = aeh :: aet)
    (name args suf : Str)
    (hname : ∀ c ∈ name, c ≠ neh)
    (hargs : ∀ c ∈ args, c ≠ aeh) :
    nameSearch m (name ++ (m.NAME_END ++ ('\n' ::
      (m.ARGS_START ++ (args ++ (m.ARGS_END ++ ('\n' :: (m.TC_END ++ suf)))))))) =
    some (name, args, suf) := by
  unfold nameSearch
  refine findSome?_range_first name.length (by simp; omega) ?_ ?_
  · intro i hi
    unfold nameStep
    rw [stripPrefix?_eq_none_iff.mpr (not_prefix_drop_of_head_notin hNE hi hname)]
  · unfold nameStep
    rw [List.drop_left, stripPrefix?_append]
    dsimp only
    rw [skipWs_nl, hAS, List.cons_append, skipWs_cons_not_ws hASw, ← List.cons_append,
      ← hAS, stripPrefix?_append]
    dsimp only
    rw [List.take_left]
    exact argsSearch_encode m hAS hASw hTC hTCw hAE name args suf hargs

theorem matchEnvelope_encode (m : Markers) {nsh ash tch neh aeh : Char}
    {nst ast tct net aet : Str}
    (hNS : m.NAME_START = nsh :: nst) (hNSw : isJsWs nsh = false)
    (hNE : m.NAME_END = neh :: net)
    (hAS : m.ARGS_START = ash :: ast) (hASw : isJsWs ash = false)
    (hTC : m.TC_END = tch :: tct) (hTCw : isJsWs tch = false)
    (hAE : m.ARGS_END = aeh :: aet)
    (name args suf : Str)
    (hname : ∀ c ∈ name, c ≠ neh)
    (hargs : ∀ c ∈ args, c ≠ aeh) :
    matchEnvelope m ('\n' :: (m.NAME_START ++ (name ++ (m.NAME_END ++ ('\n' ::
      (m.ARGS_START ++ (args ++ (m.ARGS_END ++ ('\n' :: (m.TC_END ++ suf)))))))))) =
    some (name, args, suf) := by
  unfold matchEnvelope
  rw [skipWs_nl, hNS, List.cons_append, skipWs_cons_not_ws hNSw, ← List.cons_append,
    ← hNS, stripPrefix?_append]
  exact nameSearch_encode m hNS hNSw hNE hAS hASw hTC hTCw hAE name args suf hname hargs

/-! ## Lemmas about the global scan -/

theorem scanText_nil (m : Markers) (fuel : Nat) : scanText m fuel [] = ([], []) := by
  cases fuel <;> rfl

theorem scanText_cons_step (m : Markers) (f : Nat) (c : Char) (t : Str) :
    scanText m (f + 1) (c :: t) =
      if m.TC_START ≠ [] ∧ m.TC_START.isPrefixOf (c :: t) then
        match matchEnvelope m ((c :: t).drop m.TC_START.length) with
        | some (n, a, rest) =>
          ((n, a) :: (scanText m f rest).1, (scanText m f rest).2)
        | none => ((scanText m f t).1, c :: (scanText m f t).2)
      else ((scanText m f t).1, c :: (scanText m f t).2) := rfl

theorem scanText_fuel_irrel (m : Markers) :
    ∀ (fuel1 : Nat) (s : Str) (fuel2 : Nat), s.length ≤ fuel1 → s.length ≤ fuel2 →
      scanText m fuel1 s = scanText m fuel2 s := by
  intro fuel1
  induction fuel1 with
  | zero =>
    intro s fuel2 h1 _
    have : s = [] := List.eq_nil_of_length_eq_zero (by omega)
    subst this
    rw [scanText_nil, scanText_nil]
  | succ f1 ih =>
    intro s fuel2 h1 h2
    cases s with
    | nil => rw [scanText_nil, scanText_nil]
    | cons c t =>
      cases fuel2 with
      | zero => simp at h2
      | succ f2 =>
        simp only [List.length_cons] at h1 h2
        rw [scanText_cons_step, scanText_cons_step]
        by_cases hcond : m.TC_START ≠ [] ∧ m.TC_START.isPrefixOf (c :: t) = true
        · rw [if_pos hcond, if_pos hcond]
          cases hm : matchEnvelope m ((c :: t).drop m.TC_START.length) with
          | some x =>
            obtain ⟨n, a, rest⟩ := x
            have hlen : rest.length ≤ t.length := by
              have h3 := matchEnvelope_rest_length_le hm
              have h4 : 1 ≤ m.TC_START.length := by
                cases hx : m.TC_START with
                | nil => exact absurd hx hcond.1
                | cons y ys => simp
              simp only [List.length_drop, List.length_cons] at h3
              omega
            have heq : scanText m f1 rest = scanText m f2 rest :=
              ih rest f2 (by omega) (by omega)
            dsimp only
            rw [heq]
          | none =>
            have heq : scanText m f1 t = scanText m f2 t :=
              ih t f2 (by omega) (by omega)
            dsimp only
            rw [heq]
        · rw [if_neg hcond, if_neg hcond]
          have heq : scanText m f1 t = scanText m f2 t :=
            ih t f2 (by omega) (by omega)
          rw [heq]

theorem scanText_clean {m : Markers} {tcs0 : Char} {tcsr : Str}
    (hTC : m.TC_START = tcs0 :: tcsr) :
    ∀ (s : Str) (fuel : Nat), s.length ≤ fuel → (∀ c ∈ s, c ≠ tcs0) →
      scanText m fuel s = ([], s) := by
  intro s
  induction s with
  | nil =>
    intro fuel _ _
    exact scanText_nil m fuel
  | cons c t ih =>
    intro fuel hf hclean
    cases fuel with
    | zero => simp at hf
    | succ f =>
      rw [scanText_cons_step]
      rw [if_neg]
      · rw [ih f (by simp at hf; omega)
          (fun x hx => hclean x (List.mem_cons_of_mem c hx))]
      · rintro ⟨-, hpre⟩
        rw [hTC] at hpre
        have := isPrefixOf_iff.mp hpre
        rw [List.cons_prefix_cons] at this
        exact hclean c (List.mem_cons_self c t) this.1.symm

theorem scanText_clean_front {m : Markers} {tcs0 : Char} {tcsr : Str}
    (hTC : m.TC_START = tcs0 :: tcsr) :
    ∀ (p : Str) (s : Str) (fuel : Nat), (p ++ s).length ≤ fuel → (∀ c ∈ p, c ≠ tcs0) →
      scanText m fuel (p ++ s) =
        ((scanText m s.length s).1, p ++ (scanText m s.length s).2) := by
  intro p
  induction p with
  | nil =>
    intro s fuel hf _
    rw [List.nil_append, List.nil_append,
      scanText_fuel_irrel m fuel s s.length (by simpa using hf) (le_refl _)]
  | cons c p2 ih =>
    intro s fuel hf hclean
    cases fuel with
    | zero => simp at hf
    | succ f =>
      rw [List.cons_append, scanText_cons_step]
      rw [if_neg]
      · rw [ih s f (by simp at hf ⊢; omega)
          (fun x hx => hclean x (List.mem_cons_of_mem c hx))]
        rw [List.cons_append]
      · rintro ⟨-, hpre⟩
        rw [hTC] at hpre
        have := isPrefixOf_iff.mp hpre
        rw [List.cons_prefix_cons] at this
        exact hclean c (List.mem_cons_self c p2) this.1.symm

theorem scanText_envelope_step {m : Markers} {R n a rest : Str} (f : Nat)
    (hne : m.TC_START ≠ [])
    (hmatch : matchEnvelope m R = some (n, a, rest)) :
    scanText m (f + 1) (m.TC_START ++ R) =
      ((n, a) :: (scanText m f rest).1, (scanText m f rest).2) := by
  obtain ⟨c, tcr, hTC⟩ : ∃ c tcr, m.TC_START = c :: tcr := by
    cases hx : m.TC_START with
    | nil => exact absurd hx hne
    | cons c r => exact ⟨c, r, rfl⟩
  have hconsform : m.TC_START ++ R = c :: (tcr ++ R) := by
    rw [hTC, List.cons_append]
  rw [hconsform, scanText_cons_step]
  rw [if_pos ⟨hne, isPrefixOf_iff.mpr (by rw [← hconsform]; exact List.prefix_append _ _)⟩]
  rw [← hconsform, List.drop_left, hmatch]

theorem encodeEnvelope_append (m : Markers) (name args suf : Str) :
    encodeEnvelope m name args ++ suf =
      m.TC_START ++ ('\n' :: (m.NAME_START ++ (name ++ (m.NAME_END ++ ('\n' ::
        (m.ARGS_START ++ (args ++ (m.ARGS_END ++ ('\n' :: (m.TC_END ++ suf)))))))))) := by
  simp [encodeEnvelope]

theorem scanText_encode {m : Markers} {tcs0 nsh ash tch neh aeh : Char}
    {tcsr nst ast tct net aet : Str}
    (hTC : m.TC_START = tcs0 :: tcsr)
    (hNS : m.NAME_START = nsh :: nst) (hNSw : isJsWs nsh = false)
    (hNE : m.NAME_END = neh :: net)
    (hAS : m.ARGS_START = ash :: ast) (hASw : isJsWs ash = false)
    (hTE : m.TC_END = tch :: tct) (hTEw : isJsWs tch = false)
    (hAE : m.ARGS_END = aeh :: aet)
    (name args suf : Str)
    (hname : ∀ c ∈ name, c ≠ neh)
    (hargs : ∀ c ∈ args, c ≠ aeh)
    (fuel : Nat) (hf : (encodeEnvelope m name args ++ suf).length ≤ fuel) :
    scanText m fuel (encodeEnvelope m name args ++ suf) =
      ((name, args) :: (scanText m suf.length suf).1, (scanText m suf.length suf).2) := by
  have henc1 : 1 ≤ (encodeEnvelope m name args).length := by
    rw [encodeEnvelope, hTC]
    simp
  rw [encodeEnvelope_append]
  cases fuel with
  | zero =>
    exfalso
    simp only [List.length_append] at hf
    omega
  | succ f =>
    rw [scanText_envelope_step f (by rw [hTC]; exact List.cons_ne_nil _ _)
      (matchEnvelope_encode m hNS hNSw hNE hAS hASw hTE hTEw hAE name args suf hname hargs)]
    have hfs : suf.length ≤ f := by
      simp only [List.length_append] at hf
      omega
    rw [scanText_fuel_irrel m f suf suf.length hfs (le_refl _)]

theorem parse_one_envelope {m : Markers} (now : Nat) {tcs0 nsh ash tch neh aeh : Char}
    {tcsr nst ast tct net aet : Str}
    (hTC : m.TC_START = tcs0 :: tcsr)
    (hNS : m.NAME_START = nsh :: nst) (hNSw : isJsWs nsh = false)
    (hNE : m.NAME_END = neh :: net)
    (hAS : m.ARGS_START = ash :: ast) (hASw : isJsWs ash = false)
    (hTE : m.TC_END = tch :: tct) (hTEw : isJsWs tch = false)
    (hAE : m.ARGS_END = aeh :: aet)
    (pre name args suf : Str)
    (hpre : ∀ c ∈ pre, c ≠ tcs0) (hsuf : ∀ c ∈ suf, c ≠ tcs0)
    (hname : ∀ c ∈ name, c ≠ neh) (hargs : ∀ c ∈ args, c ≠ aeh) :
    ToolCallDelimiter.parse m now (pre ++ (encodeEnvelope m name args ++ suf)) =
      ((if jsonValid (trimStr args) then
          [{ id := callId now 0, type := "function".data,
             function := { name := trimStr name, arguments := trimStr args } }]
        else []),
       trimStr (pre ++ suf)) := by
  have hscan : scanText m (pre ++ (encodeEnvelope m name args ++ suf)).length
      (pre ++ (encodeEnvelope m name args ++ suf)) = ([(name, args)], pre ++ suf) := by
    rw [scanText_clean_front hTC pre (encodeEnvelope m name args ++ suf) _ (le_refl _) hpre]
    rw [scanText_encode hTC hNS hNSw hNE hAS hASw hTE hTEw hAE name args suf hname hargs
      (encodeEnvelope m name args ++ suf).length (le_refl _)]
    rw [scanText_clean hTC suf suf.length (le_refl _) hsuf]
  unfold ToolCallDelimiter.parse
  rw [hscan]
  by_cases hv : jsonValid (trimStr args) = true
  · simp [hv, List.enum]
  · simp only [Bool.not_eq_true] at hv
    simp [hv]

/-! ## Shape and glyph facts about generated markers -/

theorem gm_TC_START (d : Fin 6) (s1 s2 : Fin 20) :
    (generateMarkers d s1 s2).TC_START = (delimRow d).openC :: suffixGlyph s1 :: ['ᐅ'] := rfl

theorem gm_TC_END (d : Fin 6) (s1 s2 : Fin 20) :
    (generateMarkers d s1 s2).TC_END = 'ᐊ' :: suffixGlyph s1 :: [(delimRow d).closeC] := rfl

theorem gm_NAME_START (d : Fin 6) (s1 s2 : Fin 20) :
    (generateMarkers d s1 s2).NAME_START = (delimRow d).midC :: ['▸'] := rfl

theorem gm_NAME_END (d : Fin 6) (s1 s2 : Fin 20) :
    (generateMarkers d s1 s2).NAME_END = '◂' :: [(delimRow d).midC] := rfl

theorem gm_ARGS_START (d : Fin 6) (s1 s2 : Fin 20) :
    (generateMarkers d s1 s2).ARGS_START = (delimRow d).midC :: ['▹'] := rfl

theorem gm_ARGS_END (d : Fin 6) (s1 s2 : Fin 20) :
    (generateMarkers d s1 s2).ARGS_END = '◃' :: [(delimRow d).midC] := rfl

theorem midC_not_ws : ∀ d : Fin 6, isJsWs (delimRow d).midC = false := by decide

theorem tcEndHead_not_ws : isJsWs 'ᐊ' = false := by decide

theorem notin_markerChars {m : Markers} {c x : Char}
    (h : inMarkerChars m c = false) (hx : x ∈ markerChars m) : c ≠ x := by
  intro he
  subst he
  unfold inMarkerChars at h
  simp only [decide_eq_false_iff_not] at h
  exact h hx

theorem tcHead_mem_markerChars {m : Markers} {tcs0 : Char} {tcsr : Str}
    (hTC : m.TC_START = tcs0 :: tcsr) : tcs0 ∈ markerChars m := by
  unfold markerChars
  rw [hTC]
  simp

theorem neHead_mem_markerChars {m : Markers} {neh : Char} {net : Str}
    (hNE : m.NAME_END = neh :: net) : neh ∈ markerChars m := by
  unfold markerChars
  rw [hNE]
  simp

theorem aeHead_mem_markerChars {m : Markers} {aeh : Char} {aet : Str}
    (hAE : m.ARGS_END = aeh :: aet) : aeh ∈ markerChars m := by
  unfold markerChars
  rw [hAE]
  simp

/-! ## Claim C1 -/

/-- C1 (amended): for every generated marker set and every text of the
form `pre ++ envelope(name, args) ++ suf` whose context and captures are
free of marker characters, if the trimmed argument blob is not valid
JSON then the parser extracts no tool call, and the residual
client-visible text equals `trim(pre ++ suf)`: the entire block
including its delimiters is removed from the residual text rather than
preserved verbatim. -/
theorem claim_C1 (d : Fin 6) (s1 s2 : Fin 20) (now : Nat) (pre name args suf : Str)
    (hpre : ∀ c ∈ pre, inMarkerChars (generateMarkers d s1 s2) c = false)
    (hsuf : ∀ c ∈ suf, inMarkerChars (generateMarkers d s1 s2) c = false)
    (hname : ∀ c ∈ name, inMarkerChars (generateMarkers d s1 s2) c = false)
    (hargs : ∀ c ∈ args, inMarkerChars (generateMarkers d s1 s2) c = false)
    (hjson : jsonValid (trimStr args) = false) :
    ToolCallDelimiter.parse (generateMarkers d s1 s2) now
      (pre ++ (encodeEnvelope (generateMarkers d s1 s2) name args ++ suf)) =
      ([], trimStr (pre ++ suf)) := by
  rw [parse_one_envelope now (gm_TC_START d s1 s2) (gm_NAME_START d s1 s2) (midC_not_ws d)
    (gm_NAME_END d s1 s2) (gm_ARGS_START d s1 s2) (midC_not_ws d) (gm_TC_END d s1 s2)
    tcEndHead_not_ws (gm_ARGS_END d s1 s2) pre name args suf
    (fun c hc => notin_markerChars (hpre c hc) (tcHead_mem_markerChars (gm_TC_START d s1 s2)))
    (fun c hc => notin_markerChars (hsuf c hc) (tcHead_mem_markerChars (gm_TC_START d s1 s2)))
    (fun c hc => notin_markerChars (hname c hc) (neHead_mem_markerChars (gm_NAME_END d s1 s2)))
    (fun c hc => notin_markerChars (hargs c hc) (aeHead_mem_markerChars (gm_ARGS_END d s1 s2)))]
  rw [if_neg (by rw [hjson]; exact Bool.false_ne_true)]

/-- C1 counterexample: the claim as stated is false.  On the input
`"Hi " ++ envelope(f, \x7boops\x7d)` the parser extracts nothing (first
half of the claim), but the residual text is `"Hi"`: it does not contain
the block, not even the `TC_START` delimiter, so the block does not
appear verbatim in the client-visible text. -/
theorem claim_C1_counterexample :
    (ToolCallDelimiter.parse (generateMarkers 0 0 0) 3
      ("Hi ".data ++ (encodeEnvelope (generateMarkers 0 0 0) "f".data "\x7boops\x7d".data
        ++ []))).1 = [] ∧
    (ToolCallDelimiter.parse (generateMarkers 0 0 0) 3
      ("Hi ".data ++ (encodeEnvelope (generateMarkers 0 0 0) "f".data "\x7boops\x7d".data
        ++ []))).2 = "Hi".data ∧
    ¬ ((generateMarkers 0 0 0).TC_START <:+:
      (ToolCallDelimiter.parse (generateMarkers 0 0 0) 3
        ("Hi ".data ++ (encodeEnvelope (generateMarkers 0 0 0) "f".data "\x7boops\x7d".data
          ++ []))).2) := by
  refine ⟨?_, ?_, ?_⟩ <;> decide

/-- C1 witness: the amended statement applied at a concrete input. -/
theorem claim_C1_witness :
    ToolCallDelimiter.parse (generateMarkers 0 0 0) 3
      ("Hi ".data ++ (encodeEnvelope (generateMarkers 0 0 0) "f".data "\x7boops\x7d".data
        ++ " bye".data)) = ([], trimStr ("Hi ".data ++ " bye".data)) :=
  claim_C1 0 0 0 3 "Hi ".data "f".data "\x7boops\x7d".data " bye".data
    (by decide) (by decide) (by decide) (by decide) (by decide)

/-! ## Decimal rendering is injective (distinctness of generated ids) -/

/-- Little-endian decimal valuation, inverse to `natDigitsAux`. -/
def ofDigitsLE : Str → Nat
  | [] => 0
  | c :: t => (c.toNat - 48) + 10 * ofDigitsLE t

theorem digitChar_toNat_sub {k : Nat} (hk : k < 10) : (Nat.digitChar k).toNat - 48 = k := by
  interval_cases k <;> decide

theorem natDigitsAux_val : ∀ (fuel n : Nat), n ≤ fuel → ofDigitsLE (natDigitsAux fuel n) = n := by
  intro fuel
  induction fuel with
  | zero =>
    intro n hn
    interval_cases n
    rfl
  | succ f ih =>
    intro n hn
    cases n with
    | zero => rfl
    | succ k =>
      show ofDigitsLE (Nat.digitChar ((k + 1) % 10) :: natDigitsAux f ((k + 1) / 10)) = k + 1
      unfold ofDigitsLE
      rw [digitChar_toNat_sub (Nat.mod_lt _ (by norm_num))]
      rw [ih ((k + 1) / 10) (by omega)]
      exact Nat.mod_add_div (k + 1) 10

theorem natStr_injective : Function.Injective natStr := by
  intro i j h
  unfold natStr at h
  by_cases hi : i = 0 <;> by_cases hj : j = 0
  · omega
  · rw [if_pos hi, if_neg hj] at h
    have : ofDigitsLE (natDigitsAux j j) = j := natDigitsAux_val j j (le_refl j)
    rw [← List.reverse_reverse (natDigitsAux j j), ← h] at this
    simp [ofDigitsLE] at this
    omega
  · rw [if_neg hi, if_pos hj] at h
    have : ofDigitsLE (natDigitsAux i i) = i := natDigitsAux_val i i (le_refl i)
    rw [← List.reverse_reverse (natDigitsAux i i), h] at this
    simp [ofDigitsLE] at this
    omega
  · rw [if_neg hi, if_neg hj] at h
    have h2 := List.reverse_injective h
    have vi := natDigitsAux_val i i (le_refl i)
    have vj := natDigitsAux_val j j (le_refl j)
    rw [h2] at vi
    omega

theorem callId_injective (now : Nat) {i j : Nat} (h : callId now i = callId now j) : i = j := by
  unfold callId at h
  have h2 := List.append_cancel_left h
  injection h2 with _ h3
  exact natStr_injective h3

/-! ## Enumeration facts -/

theorem enumFrom_fst_lt {α : Type} : ∀ (k : Nat) (l : List α) (p : Nat × α),
    p ∈ List.enumFrom k l → k ≤ p.1 := by
  intro k l
  induction l generalizing k with
  | nil =>
    intro p hp
    simp [List.enumFrom] at hp
  | cons x t ih =>
    intro p hp
    rw [List.enumFrom] at hp
    rcases List.mem_cons.mp hp with h | h
    · rw [h]
    · have := ih (k + 1) p h
      omega

theorem enumFrom_pairwise_fst {α : Type} : ∀ (k : Nat) (l : List α),
    (List.enumFrom k l).Pairwise (fun p q => p.1 < q.1) := by
  intro k l
  induction l generalizing k with
  | nil => exact List.Pairwise.nil
  | cons x t ih =>
    rw [List.enumFrom]
    exact List.Pairwise.cons
      (fun q hq => by
        have := enumFrom_fst_lt (k + 1) t q hq
        omega)
      (ih (k + 1))

theorem enum_pairwise_fst {α : Type} (l : List α) :
    l.enum.Pairwise (fun p q => p.1 < q.1) :=
  enumFrom_pairwise_fst 0 l

/-! ## Parsing an encoded tool-call list -/

theorem encodeToolCalls_nil (m : Markers) : encodeToolCalls m [] = [] := rfl

theorem encodeToolCalls_cons (m : Markers) (tc : ToolCall) (L2 : List ToolCall) :
    encodeToolCalls m (tc :: L2) =
      '\n' :: (encodeEnvelope m tc.function.name tc.function.arguments ++
        encodeToolCalls m L2) := by
  simp [encodeToolCalls, encodeToolCall]

theorem scanText_encodeToolCalls {m : Markers} {tcs0 nsh ash tch neh aeh : Char}
    {tcsr nst ast tct net aet : Str}
    (hTC : m.TC_START = tcs0 :: tcsr) (hnl : '\n' ≠ tcs0)
    (hNS : m.NAME_START = nsh :: nst) (hNSw : isJsWs nsh = false)
    (hNE : m.NAME_END = neh :: net)
    (hAS : m.ARGS_START = ash :: ast) (hASw : isJsWs ash = false)
    (hTE : m.TC_END = tch :: tct) (hTEw : isJsWs tch = false)
    (hAE : m.ARGS_END = aeh :: aet) :
    ∀ (L : List ToolCall) (fuel : Nat), (encodeToolCalls m L).length ≤ fuel →
      (∀ tc ∈ L, (∀ c ∈ tc.function.name, c ≠ neh) ∧
        (∀ c ∈ tc.function.arguments, c ≠ aeh)) →
      scanText m fuel (encodeToolCalls m L) =
        (L.map fun tc => (tc.function.name, tc.function.arguments),
         L.map fun _ => '\n') := by
  intro L
  induction L with
  | nil =>
    intro fuel _ _
    rw [encodeToolCalls_nil, scanText_nil]
    rfl
  | cons tc L2 ih =>
    intro fuel hf hcl
    rw [encodeToolCalls_cons] at hf ⊢
    rw [← List.singleton_append]
    rw [scanText_clean_front hTC ['\n']
      (encodeEnvelope m tc.function.name tc.function.arguments ++ encodeToolCalls m L2)
      fuel hf
      (by
        intro c hc
        rw [List.mem_singleton] at hc
        rw [hc]
        exact hnl)]
    rw [scanText_encode hTC hNS hNSw hNE hAS hASw hTE hTEw hAE
      tc.function.name tc.function.arguments (encodeToolCalls m L2)
      (hcl tc (List.mem_cons_self tc L2)).1 (hcl tc (List.mem_cons_self tc L2)).2
      _ (le_refl _)]
    rw [ih (encodeToolCalls m L2).length (le_refl _)
      (fun x hx => hcl x (List.mem_cons_of_mem tc hx))]
    simp

theorem parse_encodeToolCalls {m : Markers} {tcs0 nsh ash tch neh aeh : Char}
    {tcsr nst ast tct net aet : Str}
    (hTC : m.TC_START = tcs0 :: tcsr) (hnl : '\n' ≠ tcs0)
    (hNS : m.NAME_START = nsh :: nst) (hNSw : isJsWs nsh = false)
    (hNE : m.NAME_END = neh :: net)
    (hAS : m.ARGS_START = ash :: ast) (hASw : isJsWs ash = false)
    (hTE : m.TC_END = tch :: tct) (hTEw : isJsWs tch = false)
    (hAE : m.ARGS_END = aeh :: aet)
    (now : Nat) (L : List ToolCall)
    (hcl : ∀ tc ∈ L, (∀ c ∈ tc.function.name, c ≠ neh) ∧
      (∀ c ∈ tc.function.arguments, c ≠ aeh))
    (htrim : ∀ tc ∈ L, trimStr tc.function.name = tc.function.name ∧
      trimStr tc.function.arguments = tc.function.arguments)
    (hjson : ∀ tc ∈ L, jsonValid tc.function.arguments = true) :
    ToolCallDelimiter.parse m now (encodeToolCalls m L) =
      (L.enum.map (fun p => { id := callId now p.1,
                              type := "function".data,
                              function := p.2.function }), []) := by
  unfold ToolCallDelimiter.parse
  rw [scanText_encodeToolCalls hTC hnl hNS hNSw hNE hAS hASw hTE hTEw hAE L
    (encodeToolCalls m L).length (le_refl _) hcl]
  have h1 : (L.map fun tc => (tc.function.name, tc.function.arguments)).map
      (fun p => (trimStr p.1, trimStr p.2)) =
      L.map fun tc => (tc.function.name, tc.function.arguments) := by
    rw [List.map_map]
    apply List.map_congr_left
    intro tc htc
    show (trimStr tc.function.name, trimStr tc.function.arguments) = _
    rw [(htrim tc htc).1, (htrim tc htc).2]
  have h2 : (L.map fun tc => (tc.function.name, tc.function.arguments)).filter
      (fun p => jsonValid p.2) = L.map fun tc => (tc.function.name, tc.function.arguments) := by
    rw [List.filter_eq_self]
    intro p hp
    rcases List.mem_map.mp hp with ⟨tc, htc, rfl⟩
    exact hjson tc htc
  dsimp only
  rw [h1, h2]
  simp only [Prod.mk.injEq]
  constructor
  · rw [List.enum_map, List.map_map]
    apply List.map_congr_left
    intro p _
    rfl
  · exact trimStr_all_ws (by
      intro c hc
      rcases List.mem_map.mp hc with ⟨tc, _, rfl⟩
      decide)

/-! ## Claim C4 -/

/-- C4 (amended): for every generated marker set and every tool-call list
L whose argument strings are valid JSON, contain no marker characters
and carry no leading or trailing whitespace, and whose names likewise
contain no marker characters and no edge whitespace, parsing the
delimiter encoding of L yields a tool-call list whose `function` records
equal those of L pairwise and in order, an empty residual clean text,
and pairwise-distinct generated ids. -/
theorem claim_C4 (d : Fin 6) (s1 s2 : Fin 20) (now : Nat) (L : List ToolCall)
    (hcl : ∀ tc ∈ L,
      (∀ c ∈ tc.function.name, inMarkerChars (generateMarkers d s1 s2) c = false) ∧
      (∀ c ∈ tc.function.arguments, inMarkerChars (generateMarkers d s1 s2) c = false))
    (htrim : ∀ tc ∈ L, trimStr tc.function.name = tc.function.name ∧
      trimStr tc.function.arguments = tc.function.arguments)
    (hjson : ∀ tc ∈ L, jsonValid tc.function.arguments = true) :
    (ToolCallDelimiter.parse (generateMarkers d s1 s2) now
      (encodeToolCalls (generateMarkers d s1 s2) L)).1.map (fun tc => tc.function) =
        L.map (fun tc => tc.function) ∧
    (ToolCallDelimiter.parse (generateMarkers d s1 s2) now
      (encodeToolCalls (generateMarkers d s1 s2) L)).2 = [] ∧
    (ToolCallDelimiter.parse (generateMarkers d s1 s2) now
      (encodeToolCalls (generateMarkers d s1 s2) L)).1.Pairwise
        (fun a b => a.id ≠ b.id) := by
  have hnl : '\n' ≠ (delimRow d).openC := by
    have hall : ∀ dd : Fin 6, '\n' ≠ (delimRow dd).openC := by decide
    exact hall d
  rw [parse_encodeToolCalls (gm_TC_START d s1 s2) hnl (gm_NAME_START d s1 s2)
    (midC_not_ws d) (gm_NAME_END d s1 s2) (gm_ARGS_START d s1 s2) (midC_not_ws d)
    (gm_TC_END d s1 s2) tcEndHead_not_ws (gm_ARGS_END d s1 s2) now L
    (fun tc htc =>
      ⟨fun c hc => notin_markerChars ((hcl tc htc).1 c hc)
          (neHead_mem_markerChars (gm_NAME_END d s1 s2)),
       fun c hc => notin_markerChars ((hcl tc htc).2 c hc)
          (aeHead_mem_markerChars (gm_ARGS_END d s1 s2))⟩)
    htrim hjson]
  refine ⟨?_, rfl, ?_⟩
  · dsimp only
    rw [List.map_map]
    have : ((fun tc : ToolCall => tc.function) ∘ fun p : Nat × ToolCall =>
        ({ id := callId now p.1, type := "function".data,
           function := p.2.function } : ToolCall)) =
        (fun tc : ToolCall => tc.function) ∘ Prod.snd := rfl
    rw [this, ← List.map_map, List.enum_map_snd]
  · dsimp only
    rw [List.pairwise_map]
    have hp := enum_pairwise_fst L
    apply List.Pairwise.imp ?_ hp
    intro p q hlt
    dsimp only
    intro heq
    have := callId_injective now heq
    omega

/-- C4 counterexample: the claim as stated is false.  The argument blob
`"◃࿇ᐊ龘༒"` is valid JSON (a plain string), yet encoding and parsing the
singleton list with those arguments yields no tool call at all: the lazy
args group stops at the `◃࿇` inside the string, the continuation
`ᐊ龘༒` is mistaken for `TC_END`, and the truncated capture fails the
JSON check. -/
theorem claim_C4_counterexample :
    jsonValid "\"◃࿇ᐊ龘༒\"".data = true ∧
    (ToolCallDelimiter.parse (generateMarkers 0 0 0) 3
      (encodeToolCalls (generateMarkers 0 0 0)
        [{ id := [], type := [],
           function := { name := "f".data, arguments := "\"◃࿇ᐊ龘༒\"".data } }])).1 = [] := by
  constructor <;> decide

/-- C4 witness: the amended statement applied to a concrete two-call
list. -/
theorem claim_C4_witness :
    (ToolCallDelimiter.parse (generateMarkers 0 0 0) 7
      (encodeToolCalls (generateMarkers 0 0 0)
        [{ id := [], type := [],
           function := { name := "add".data, arguments := "\x7b\"a\":1\x7d".data } },
         { id := [], type := [],
           function := { name := "mul".data, arguments := "\x7b\"b\":2\x7d".data } }])).1.map (fun tc => tc.function) =
      [{ name := "add".data, arguments := "\x7b\"a\":1\x7d".data },
       { name := "mul".data, arguments := "\x7b\"b\":2\x7d".data }] ∧
    (ToolCallDelimiter.parse (generateMarkers 0 0 0) 7
      (encodeToolCalls (generateMarkers 0 0 0)
        [{ id := [], type := [],
           function := { name := "add".data, arguments := "\x7b\"a\":1\x7d".data } },
         { id := [], type := [],
           function := { name := "mul".data, arguments := "\x7b\"b\":2\x7d".data } }])).2 = [] ∧
    (ToolCallDelimiter.parse (generateMarkers 0 0 0) 7
      (encodeToolCalls (generateMarkers 0 0 0)
        [{ id := [], type := [],
           function := { name := "add".data, arguments := "\x7b\"a\":1\x7d".data } },
         { id := [], type := [],
           function := { name := "mul".data, arguments := "\x7b\"b\":2\x7d".data } }])).1.Pairwise
        (fun a b => a.id ≠ b.id) :=
  claim_C4 0 0 0 7 _ (by decide) (by decide) (by decide)

/-! ## Claim C5: the adjacent-role merge invariant -/

theorem mergeLoop_chain : ∀ (rest : List Message) (cur : Message),
    List.Chain' (fun a b => a.role ≠ b.role) (mergeLoop cur rest) ∧
    ∀ h ∈ (mergeLoop cur rest).head?, h.role = cur.role := by
  intro rest
  induction rest with
  | nil =>
    intro cur
    refine ⟨List.chain'_singleton cur, ?_⟩
    intro h hh
    have he : mergeLoop cur [] = [cur] := rfl
    rw [he, List.head?_cons] at hh
    injection hh with hh
    rw [← hh]
  | cons msg rest2 ih =>
    intro cur
    unfold mergeLoop
    by_cases hrole : msg.role = cur.role
    · rw [if_pos hrole]
      rcases ih _ with ⟨hc, hh⟩
      exact ⟨hc, hh⟩
    · rw [if_neg hrole]
      rcases ih msg with ⟨hc, hh⟩
      refine ⟨List.chain'_cons'.mpr ⟨?_, hc⟩, ?_⟩
      · intro y hy
        have := hh y hy
        rw [this]
        exact fun he => hrole he.symm
      · intro h hh2
        rw [List.head?_cons] at hh2
        injection hh2 with hh2
        rw [← hh2]

theorem mergeAdjacentMessages_chain (l : List Message) :
    List.Chain' (fun a b => a.role ≠ b.role) (mergeAdjacentMessages l) := by
  cases l with
  | nil => exact List.chain'_nil
  | cons m0 rest => exact (mergeLoop_chain rest m0).1

/-- C5: for every marker choice, every chat request and either value of
the `hasTools` flag, the message list produced by the request transcoder
contains no two consecutive messages with the same role: the final
adjacent-role merge guarantees the invariant regardless of the input. -/
theorem claim_C5 (d : Fin 6) (s1 s2 : Fin 20) (req : ChatRequest) (hasTools : Bool) :
    List.Chain' (fun a b => a.role ≠ b.role)
      (transformRequest (generateMarkers d s1 s2) req hasTools).messages := by
  unfold transformRequest
  exact mergeAdjacentMessages_chain _

/-! ## Claim C6: no-tools passthrough -/

theorem mergeLoop_id : ∀ (rest : List Message) (cur : Message),
    List.Chain' (fun a b => a.role ≠ b.role) (cur :: rest) →
    mergeLoop cur rest = cur :: rest := by
  intro rest
  induction rest with
  | nil =>
    intro cur _
    rfl
  | cons msg rest2 ih =>
    intro cur hc
    rw [List.chain'_cons] at hc
    unfold mergeLoop
    rw [if_neg (fun he => hc.1 he.symm)]
    rw [ih msg hc.2]

theorem mergeAdjacentMessages_id {l : List Message}
    (h : List.Chain' (fun a b => a.role ≠ b.role) l) :
    mergeAdjacentMessages l = l := by
  cases l with
  | nil => rfl
  | cons m0 rest => exact mergeLoop_id rest m0 h

theorem rewriteMsg_id {m : Markers} {msg : Message}
    (hnt : msg.role ≠ "tool".data)
    (hna : msg.role = "assistant".data → hasToolCallsB msg = false)
    (hsys : msg.role = "system".data → plainStrMessage msg = true) :
    rewriteMsg m false [] msg = msg := by
  unfold rewriteMsg
  by_cases hs : msg.role = "system".data
  · rw [if_pos hs]
    have hps := hsys hs
    unfold plainStrMessage at hps
    simp only [Bool.and_eq_true, Option.isNone_iff_eq_none] at hps
    obtain ⟨⟨⟨hcontent, htc⟩, hname⟩, htcid⟩ := hps
    obtain ⟨role, content, tcs, nm, tcid⟩ := msg
    simp only at hs hcontent htc hname htcid
    subst hs htc hname htcid
    cases content with
    | none => simp at hcontent
    | some v =>
      cases v with
      | jstr s =>
        simp [jsAddStr, jsToString]
      | jnull => simp [plainStrMessage] at hcontent
      | jbool b => simp at hcontent
      | jnum n => simp at hcontent
      | jarr xs => simp at hcontent
      | jobj kvs => simp at hcontent
  · rw [if_neg hs]
    by_cases ha : msg.role = "assistant".data ∧ hasToolCallsB msg = true
    · exfalso
      rw [hna ha.1] at ha
      exact Bool.false_ne_true ha.2
    · rw [if_neg ha, if_neg hnt]

/-- C6 (amended): for every marker choice and every chat request passed
with `hasTools = false` whose history contains no tool-role message and
no assistant message carrying tool calls, provided additionally that no
two consecutive messages share a role (otherwise the adjacent-role merge
rewrites them) and that every system message consists of a role and a
string content only (the transcoder re-emits system messages with
exactly those fields), the output equals the input except that the
`tools` and `tool_choice` fields are absent. -/
theorem claim_C6 (d : Fin 6) (s1 s2 : Fin 20) (req : ChatRequest)
    (hmsg : ∀ msg ∈ req.messages, msg.role ≠ "tool".data ∧
      (msg.role = "assistant".data → hasToolCallsB msg = false) ∧
      (msg.role = "system".data → plainStrMessage msg = true))
    (hchain : List.Chain' (fun a b => a.role ≠ b.role) req.messages) :
    transformRequest (generateMarkers d s1 s2) req false =
      { req with tools := none, tool_choice := none } := by
  simp only [transformRequest, Bool.false_and, Bool.false_eq_true, if_false,
    ne_eq, not_true_eq_false, and_false, List.append_nil]
  have hmap : req.messages.map (rewriteMsg (generateMarkers d s1 s2) false []) =
      req.messages := by
    have hpt : ∀ msg ∈ req.messages,
        rewriteMsg (generateMarkers d s1 s2) false [] msg = id msg :=
      fun msg hm => rewriteMsg_id (hmsg msg hm).1 (hmsg msg hm).2.1 (hmsg msg hm).2.2
    rw [List.map_congr_left hpt, List.map_id]
  rw [hmap, mergeAdjacentMessages_id hchain]

/-- C6 counterexample: the claim as stated is false.  A request with two
consecutive user messages and no tools at all has its messages merged by
the adjacent-role pass, so the output does not equal the input with
`tools` and `tool_choice` removed: two messages become one. -/
theorem claim_C6_counterexample :
    (transformRequest (generateMarkers 0 0 0)
      { messages := [{ role := "user".data, content := some (.jstr "a".data),
                       tool_calls := none, name := none, tool_call_id := none },
                     { role := "user".data, content := some (.jstr "b".data),
                       tool_calls := none, name := none, tool_call_id := none }],
        tools := none, tool_choice := none, rest := [] } false).messages.length = 1 ∧
    ([{ role := "user".data, content := some (.jstr "a".data),
        tool_calls := none, name := none, tool_call_id := none },
      { role := "user".data, content := some (.jstr "b".data),
        tool_calls := none, name := none, tool_call_id := none }] : List Message).length = 2 := by
  constructor
  · rfl
  · rfl

/-- C6 witness: the amended statement applied at a concrete request. -/
theorem claim_C6_witness :
    transformRequest (generateMarkers 0 0 0)
      { messages := [{ role := "system".data, content := some (.jstr "sp".data),
                       tool_calls := none, name := none, tool_call_id := none },
                     { role := "user".data, content := some (.jstr "hi".data),
                       tool_calls := none, name := some "bob".data, tool_call_id := none }],
        tools := none, tool_choice := some .jnull, rest := [("stream".data, .jbool true)] }
      false =
    { messages := [{ role := "system".data, content := some (.jstr "sp".data),
                     tool_calls := none, name := none, tool_call_id := none },
                   { role := "user".data, content := some (.jstr "hi".data),
                     tool_calls := none, name := some "bob".data, tool_call_id := none }],
      tools := none, tool_choice := none, rest := [("stream".data, .jbool true)] } :=
  claim_C6 0 0 0 _ (by decide)
    (List.chain'_cons.mpr ⟨by decide, List.chain'_singleton _⟩)

/-! ## Claim C10: tool-message rewriting -/

/-- C10 (amended): for every marker choice, flag value and tool prompt,
rewriting a tool-role message produces a user message whose embedded
tool name is the `name` field when present and non-empty, otherwise the
`tool_call_id` when present and non-empty, otherwise the literal
`unknown` (JavaScript falsiness makes an empty string fall through),
and whose embedded result is the content itself when it is a string,
its `JSON.stringify` rendering when it is any other JSON value, and the
string `undefined` when the field is missing; the rewrite is total and
never fails. -/
theorem claim_C10 (d : Fin 6) (s1 s2 : Fin 20) (hasTools : Bool) (toolPrompt : Str)
    (msg : Message) (hrole : msg.role = "tool".data) :
    rewriteMsg (generateMarkers d s1 s2) hasTools toolPrompt msg =
      { role := "user".data,
        content := some (.jstr (
          (fun nm result =>
            if hasTools then
              (generateMarkers d s1 s2).RESULT_START ++ '[' :: nm ++ ']' :: '\n' ::
                result ++ (generateMarkers d s1 s2).RESULT_END
            else "[Result from ".data ++ nm ++ ']' :: ':' :: '\n' :: result)
          (match msg.name with
           | some s =>
             if s = [] then
               (match msg.tool_call_id with
                | some t => if t = [] then "unknown".data else t
                | none => "unknown".data)
             else s
           | none =>
             match msg.tool_call_id with
             | some t => if t = [] then "unknown".data else t
             | none => "unknown".data)
          (match msg.content with
           | some (.jstr s) => s
           | some v => stringify v
           | none => "undefined".data))),
        tool_calls := none, name := none, tool_call_id := none } := by
  unfold rewriteMsg
  rw [hrole]
  rw [if_neg (by decide), if_neg (fun hc => absurd hc.1 (by decide)), if_pos rfl]
  cases hn : msg.name with
  | none => cases ht : msg.tool_call_id with
    | none => rfl
    | some t => rfl
  | some s => cases ht : msg.tool_call_id with
    | none => rfl
    | some t => rfl

/-- C10 counterexample: the claim as stated is false.  A tool message
whose `name` field is present but empty is rewritten using the
`tool_call_id` (`id7`), not the present name field: JavaScript `||`
treats the empty string as absent. -/
theorem claim_C10_counterexample :
    (transformRequest (generateMarkers 0 0 0)
      { messages := [{ role := "tool".data, content := some (.jstr "ok".data),
                       tool_calls := none, name := some [],
                       tool_call_id := some "id7".data }],
        tools := none, tool_choice := none, rest := [] } false).messages.map contentStrOf =
      [some "[Result from id7]:\nok".data] ∧
    ([some "[Result from id7]:\nok".data] : List (Option Str)) ≠
      [some "[Result from ]:\nok".data] := by
  exact ⟨rfl, by decide⟩

/-- C10 witness: the amended statement applied at a concrete tool
message. -/
theorem claim_C10_witness :
    rewriteMsg (generateMarkers 0 0 0) false "p".data
      { role := "tool".data, content := some (.jstr "ok".data),
        tool_calls := none, name := some [], tool_call_id := some "id7".data } =
      { role := "user".data,
        content := some (.jstr "[Result from id7]:\nok".data),
        tool_calls := none, name := none, tool_call_id := none } := by
  have h := claim_C10 0 0 0 false "p".data
    { role := "tool".data, content := some (.jstr "ok".data),
      tool_calls := none, name := some [], tool_call_id := some "id7".data } rfl
  rw [h]
  rfl

/-! ## Claim C9: marker-set invariants -/

set_option maxHeartbeats 1000000 in
theorem markersOk_row0 : ∀ (s1 s2 : Fin 20),
    markersOk (generateMarkers 0 s1 s2) = true := by decide

set_option maxHeartbeats 1000000 in
theorem markersOk_row1 : ∀ (s1 s2 : Fin 20),
    markersOk (generateMarkers 1 s1 s2) = true := by decide

set_option maxHeartbeats 1000000 in
theorem markersOk_row2 : ∀ (s1 s2 : Fin 20),
    markersOk (generateMarkers 2 s1 s2) = true := by decide

set_option maxHeartbeats 1000000 in
theorem markersOk_row3 : ∀ (s1 s2 : Fin 20),
    markersOk (generateMarkers 3 s1 s2) = true := by decide

set_option maxHeartbeats 1000000 in
theorem markersOk_row4 : ∀ (s1 s2 : Fin 20),
    markersOk (generateMarkers 4 s1 s2) = true := by decide

set_option maxHeartbeats 1000000 in
theorem markersOk_row5 : ∀ (s1 s2 : Fin 20),
    markersOk (generateMarkers 5 s1 s2) = true := by decide

/-- C9: for every possible random marker choice (any of the six delimiter
rows combined with any pair of suffix glyphs, the two suffixes possibly
equal), among the eight generated markers no marker is a prefix of
another, no marker contains an ASCII code point, and every marker is at
least two code points long. -/
theorem claim_C9 : ∀ (d : Fin 6) (s1 s2 : Fin 20),
    markersOk (generateMarkers d s1 s2) = true := by
  intro d
  rcases d with ⟨dv, hdv⟩
  match dv, hdv with
  | 0, h => exact markersOk_row0
  | 1, h => exact markersOk_row1
  | 2, h => exact markersOk_row2
  | 3, h => exact markersOk_row3
  | 4, h => exact markersOk_row4
  | 5, h => exact markersOk_row5
  | n + 6, h => exact absurd h (by omega)

/-! ## Claim C8: the non-streaming response transcoder -/

/-- C8: on a tool-declaring request, if the parser extracts at least one
tool call from the first choice's content then the message's
`tool_calls` is set to the extracted list, its content becomes the
residual clean text (or null when the residual is empty) and the first
choice's `finish_reason` becomes `tool_calls`, while the message's other
fields, the remaining choices and the other response fields pass through
unchanged; if the parser extracts nothing (including when the content is
null or empty), the response is returned unchanged. -/
theorem claim_C8 (d : Fin 6) (s1 s2 : Fin 20) (now : Nat) (data : Response)
    (ch : RespChoice) (tailChoices : List RespChoice)
    (hch : data.choices = ch :: tailChoices) :
    ((∀ s, ch.message.content = some s → s ≠ [] →
      (ToolCallDelimiter.parse (generateMarkers d s1 s2) now s).1 ≠ [] →
      transformResponse (generateMarkers d s1 s2) now true data =
        { data with choices :=
            { ch with
              message := { ch.message with
                tool_calls := some (ToolCallDelimiter.parse (generateMarkers d s1 s2) now s).1,
                content :=
                  if (ToolCallDelimiter.parse (generateMarkers d s1 s2) now s).2 ≠ [] then
                    some (ToolCallDelimiter.parse (generateMarkers d s1 s2) now s).2
                  else none },
              finish_reason := some "tool_calls".data } :: tailChoices }) ∧
    (∀ s, ch.message.content = some s → s ≠ [] →
      (ToolCallDelimiter.parse (generateMarkers d s1 s2) now s).1 = [] →
      transformResponse (generateMarkers d s1 s2) now true data = data) ∧
    (ch.message.content = none ∨ ch.message.content = some [] →
      transformResponse (generateMarkers d s1 s2) now true data = data)) := by
  refine ⟨?_, ?_, ?_⟩
  · intro s hs hne hcalls
    unfold transformResponse
    rw [if_pos rfl, hch]
    dsimp only
    rw [hs]
    dsimp only
    rw [if_pos hne, if_pos hcalls]
  · intro s hs hne hcalls
    unfold transformResponse
    rw [if_pos rfl, hch]
    dsimp only
    rw [hs]
    dsimp only
    rw [if_pos hne, if_neg (by rw [hcalls]; exact fun hc => hc rfl)]
  · intro hs
    unfold transformResponse
    rw [if_pos rfl, hch]
    dsimp only
    rcases hs with hs | hs
    · rw [hs]
    · rw [hs]
      dsimp only
      rw [if_neg (by exact fun hc => hc rfl)]

theorem claim_C8_witness :
    transformResponse (generateMarkers 0 0 0) 7 true
      { choices :=
          [{ message :=
              { content := some (encodeToolCalls (generateMarkers 0 0 0)
                  [{ id := [], type := [],
                     function := { name := "add".data, arguments := "\x7b\"a\":1\x7d".data } }]),
                tool_calls := none, rest := [] },
             finish_reason := some "stop".data, rest := [] }],
        rest := [] } =
      { choices :=
          [{ message :=
              { content :=
                  if (ToolCallDelimiter.parse (generateMarkers 0 0 0) 7
                        (encodeToolCalls (generateMarkers 0 0 0)
                          [{ id := [], type := [],
                             function := { name := "add".data, arguments := "\x7b\"a\":1\x7d".data } }])).2 ≠ [] then
                    some (ToolCallDelimiter.parse (generateMarkers 0 0 0) 7
                        (encodeToolCalls (generateMarkers 0 0 0)
                          [{ id := [], type := [],
                             function := { name := "add".data, arguments := "\x7b\"a\":1\x7d".data } }])).2
                  else none,
                tool_calls := some (ToolCallDelimiter.parse (generateMarkers 0 0 0) 7
                    (encodeToolCalls (generateMarkers 0 0 0)
                      [{ id := [], type := [],
                         function := { name := "add".data, arguments := "\x7b\"a\":1\x7d".data } }])).1,
                rest := [] },
             finish_reason := some "tool_calls".data, rest := [] }],
        rest := [] } :=
  (claim_C8 0 0 0 7 _
    { message :=
        { content := some (encodeToolCalls (generateMarkers 0 0 0)
            [{ id := [], type := [],
               function := { name := "add".data, arguments := "\x7b\"a\":1\x7d".data } }]),
          tool_calls := none, rest := [] },
      finish_reason := some "stop".data, rest := [] }
    [] rfl).1 _ rfl (by decide) (by decide)

/-! ## Claim C7: the SSRF gate -/

/-- C7: with `ALLOW_LOCAL_NET` off, a missing or unparseable upstream URL,
a scheme other than http/https, a blocked hostname (`localhost`,
`127.0.0.1`, `::1`, `0.0.0.0`), or a DNS answer in one of the private
IPv4 ranges 10/8, 172.16/12, 192.168/16 or 127/8 is answered with
status 403 and the `Access denied` security-error body before the
upstream is contacted; with the flag on, the hostname and private-IP
checks are skipped and the request proceeds. -/
theorem claim_C7 (allowLocalNet : Bool) (reqUrl : Str)
    (parsed : Option URLParts) (dnsAnswer : Option Str) :
    (extractUpstream reqUrl = none →
      ssrfGate allowLocalNet reqUrl parsed dnsAnswer =
        some (403, ⟨"Access denied: Missing upstream URL".data, "security_error".data⟩)) ∧
    (∀ u, extractUpstream reqUrl = some u → parsed = none →
      ssrfGate allowLocalNet reqUrl parsed dnsAnswer =
        some (403, ⟨"Access denied: Invalid URL format".data, "security_error".data⟩)) ∧
    (∀ u p, extractUpstream reqUrl = some u → parsed = some p →
      p.protocol ≠ "http:".data → p.protocol ≠ "https:".data →
      ssrfGate allowLocalNet reqUrl parsed dnsAnswer =
        some (403, ⟨"Access denied: Invalid protocol (http/https only)".data,
                    "security_error".data⟩)) ∧
    (∀ u p, allowLocalNet = false → extractUpstream reqUrl = some u → parsed = some p →
      (p.protocol = "http:".data ∨ p.protocol = "https:".data) →
      (p.hostname = "localhost".data ∨ p.hostname = "127.0.0.1".data ∨
       p.hostname = "::1".data ∨ p.hostname = "0.0.0.0".data) →
      ssrfGate allowLocalNet reqUrl parsed dnsAnswer =
        some (403,
          ⟨"Access denied: Localhost access denied (Set ALLOW_LOCAL_NET=true to enable)".data,
           "security_error".data⟩)) ∧
    (∀ u p addr a b c e, allowLocalNet = false → extractUpstream reqUrl = some u →
      parsed = some p →
      (p.protocol = "http:".data ∨ p.protocol = "https:".data) →
      ¬(p.hostname = "localhost".data ∨ p.hostname = "127.0.0.1".data ∨
        p.hostname = "::1".data ∨ p.hostname = "0.0.0.0".data) →
      dnsAnswer = some addr →
      (List.splitOn '.' addr).map jsNum = [a, b, c, e] →
      ((a = some 10 →
        ssrfGate allowLocalNet reqUrl parsed dnsAnswer =
          some (403, ⟨"Access denied: Private IP range (10.x.x.x) denied".data,
                      "security_error".data⟩)) ∧
       (a = some 172 → inRange16To31 b = true →
        ssrfGate allowLocalNet reqUrl parsed dnsAnswer =
          some (403, ⟨"Access denied: Private IP range (172.16-31.x.x) denied".data,
                      "security_error".data⟩)) ∧
       (a = some 192 → b = some 168 →
        ssrfGate allowLocalNet reqUrl parsed dnsAnswer =
          some (403, ⟨"Access denied: Private IP range (192.168.x.x) denied".data,
                      "security_error".data⟩)) ∧
       (a = some 127 →
        ssrfGate allowLocalNet reqUrl parsed dnsAnswer =
          some (403, ⟨"Access denied: Loopback IP denied".data,
                      "security_error".data⟩)))) ∧
    (∀ u p, allowLocalNet = true → extractUpstream reqUrl = some u → parsed = some p →
      (p.protocol = "http:".data ∨ p.protocol = "https:".data) →
      ssrfGate allowLocalNet reqUrl parsed dnsAnswer = none) := by
  have hprotNe : ∀ p : URLParts,
      (p.protocol = "http:".data ∨ p.protocol = "https:".data) →
      ¬(p.protocol ≠ "http:".data ∧ p.protocol ≠ "https:".data) := by
    intro p hp hc
    rcases hp with hp | hp
    · exact hc.1 hp
    · exact hc.2 hp
  refine ⟨?_, ?_, ?_, ?_, ?_, ?_⟩
  · intro h
    unfold ssrfGate
    rw [h]
    rfl
  · intro u hu hp
    unfold ssrfGate
    rw [hu, hp]
    rfl
  · intro u p hu hp h1 h2
    unfold ssrfGate
    rw [hu, hp]
    unfold validateUpstream
    dsimp only
    rw [if_pos ⟨h1, h2⟩]
    rfl
  · intro u p hflag hu hp hprot hhost
    unfold ssrfGate
    rw [hu, hp]
    unfold validateUpstream
    dsimp only
    rw [if_neg (hprotNe p hprot), hflag, if_neg Bool.false_ne_true, if_pos hhost]
    rfl
  · intro u p addr a b c e hflag hu hp hprot hhost hdns hsplit
    refine ⟨?_, ?_, ?_, ?_⟩
    · intro ha
      unfold ssrfGate
      rw [hu, hp]
      unfold validateUpstream
      dsimp only
      rw [if_neg (hprotNe p hprot), hflag, if_neg Bool.false_ne_true, if_neg hhost,
        hdns]
      dsimp only
      rw [hsplit]
      dsimp only
      rw [if_pos ha]
      rfl
    · intro ha hb
      unfold ssrfGate
      rw [hu, hp]
      unfold validateUpstream
      dsimp only
      rw [if_neg (hprotNe p hprot), hflag, if_neg Bool.false_ne_true, if_neg hhost,
        hdns]
      dsimp only
      rw [hsplit]
      dsimp only
      rw [if_neg (by rw [ha]; intro hx; cases hx), if_pos ⟨ha, hb⟩]
      rfl
    · intro ha hb
      unfold ssrfGate
      rw [hu, hp]
      unfold validateUpstream
      dsimp only
      rw [if_neg (hprotNe p hprot), hflag, if_neg Bool.false_ne_true, if_neg hhost,
        hdns]
      dsimp only
      rw [hsplit]
      dsimp only
      rw [if_neg (by rw [ha]; intro hx; cases hx),
        if_neg (by rw [ha]; intro hx; cases hx.1),
        if_pos ⟨ha, hb⟩]
      rfl
    · intro ha
      unfold ssrfGate
      rw [hu, hp]
      unfold validateUpstream
      dsimp only
      rw [if_neg (hprotNe p hprot), hflag, if_neg Bool.false_ne_true, if_neg hhost,
        hdns]
      dsimp only
      rw [hsplit]
      dsimp only
      rw [if_neg (by rw [ha]; intro hx; cases hx),
        if_neg (by rw [ha]; intro hx; cases hx.1),
        if_neg (by rw [ha]; intro hx; cases hx.1),
        if_pos ha]
      rfl
  · intro u p hflag hu hp hprot
    unfold ssrfGate
    rw [hu, hp]
    unfold validateUpstream
    dsimp only
    rw [if_neg (hprotNe p hprot), hflag, if_pos rfl]

theorem claim_C7_witness :
    ssrfGate false "/http://evil.example/v1".data
      (some { protocol := "http:".data, hostname := "evil.example".data })
      (some "10.1.2.3".data) =
      some (403, ⟨"Access denied: Private IP range (10.x.x.x) denied".data,
                  "security_error".data⟩) :=
  ((claim_C7 false "/http://evil.example/v1".data
      (some { protocol := "http:".data, hostname := "evil.example".data })
      (some "10.1.2.3".data)).2.2.2.2.1 "http://evil.example/v1".data
      { protocol := "http:".data, hostname := "evil.example".data }
      "10.1.2.3".data (some 10) (some 1) (some 2) (some 3)
      rfl (by decide) rfl (Or.inl rfl) (by decide) rfl (by decide)).1 rfl

/-! ## Streaming lemmas: emitted text under the transformer -/

theorem outTexts_append (a b : List OutChunk) :
    outTexts (a ++ b) = outTexts a ++ outTexts b := by
  unfold outTexts
  rw [List.map_append, List.flatten_append]

theorem outTexts_textChunkOut (s : Str) : outTexts (textChunkOut s) = s := by
  unfold textChunkOut
  by_cases h : s = []
  · rw [if_pos h, h]
    rfl
  · rw [if_neg h]
    simp [outTexts]

theorem outTexts_terminalOut_nobuf {m : Markers} {now : Nat} {st : StreamState}
    (h : st.contentBuffer = []) :
    outTexts (terminalOut m now st) = st.pendingText := by
  unfold terminalOut
  rw [h]
  rw [if_neg (fun hc => hc rfl)]
  rw [outTexts_append, outTexts_append, outTexts_textChunkOut]
  simp [outTexts]

theorem feedLines_cons (m : Markers) (now : Nat) (l : SSELine) (rest : List SSELine)
    (st : StreamState) :
    feedLines m now st (l :: rest) =
      ((feedLines m now (processLine m now l st).1 rest).1,
       (processLine m now l st).2 ++ (feedLines m now (processLine m now l st).1 rest).2) := rfl

theorem feedLines_append (m : Markers) (now : Nat) :
    ∀ (xs ys : List SSELine) (st : StreamState),
      feedLines m now st (xs ++ ys) =
        ((feedLines m now (feedLines m now st xs).1 ys).1,
         (feedLines m now st xs).2 ++ (feedLines m now (feedLines m now st xs).1 ys).2) := by
  intro xs
  induction xs with
  | nil => intro ys st; rfl
  | cons l xs ih =>
    intro ys st
    rw [List.cons_append, feedLines_cons, ih, feedLines_cons, List.append_assoc]

theorem lineContents_blank (rest : List SSELine) :
    lineContents (SSELine.blank :: rest) = lineContents rest := by
  simp [lineContents]

theorem lineContents_other (rest : List SSELine) :
    lineContents (SSELine.other :: rest) = lineContents rest := by
  simp [lineContents]

theorem lineContents_content (c : Str) (rest : List SSELine) :
    lineContents (SSELine.content c :: rest) = c ++ lineContents rest := by
  simp [lineContents]

theorem processLine_content (m : Markers) (now : Nat) (c P : Str)
    (hninf : idxOf? m.TC_START (P ++ c) = none) :
    processLine m now (SSELine.content c) ⟨[], false, P, false⟩ =
      (if (P ++ c).contains (m.TC_START.headD ' ') then
        (⟨[], false, P ++ c, false⟩, [])
      else (⟨[], false, [], false⟩, textChunkOut (P ++ c))) := by
  show (match idxOf? m.TC_START (P ++ c) with
        | some k =>
          ((⟨(P ++ c).drop k, true, [], false⟩ : StreamState),
           textChunkOut ((P ++ c).take k))
        | none =>
          if (P ++ c).contains (m.TC_START.headD ' ') then
            ((⟨[], false, P ++ c, false⟩ : StreamState), ([] : List OutChunk))
          else (⟨[], false, [], false⟩, textChunkOut (P ++ c))) = _
  rw [hninf]

theorem feedLines_noTC {m : Markers} (now : Nat) :
    ∀ (body : List SSELine) (P : Str),
      (∀ l ∈ body, notDone l = true) →
      ¬ m.TC_START <:+: (P ++ lineContents body) →
      ∃ pend : Str,
        (feedLines m now ⟨[], false, P, false⟩ body).1 = ⟨[], false, pend, false⟩ ∧
        outTexts (feedLines m now ⟨[], false, P, false⟩ body).2 ++ pend =
          P ++ lineContents body := by
  intro body
  induction body with
  | nil =>
    intro P hb hfree
    refine ⟨P, rfl, ?_⟩
    show outTexts [] ++ P = P ++ lineContents []
    simp [outTexts, lineContents]
  | cons l rest ih =>
    intro P hb hfree
    have hbrest : ∀ x ∈ rest, notDone x = true :=
      fun x hx => hb x (List.mem_cons_of_mem _ hx)
    match l with
    | .done => exact absurd (hb .done (List.mem_cons_self _ _)) (by decide)
    | .blank =>
      rw [lineContents_blank] at hfree ⊢
      exact ih P hbrest hfree
    | .other =>
      rw [lineContents_other] at hfree ⊢
      exact ih P hbrest hfree
    | .content c =>
      rw [lineContents_content] at hfree ⊢
      have hninf : idxOf? m.TC_START (P ++ c) = none := by
        rw [idxOf?_eq_none_iff]
        intro hinf
        apply hfree
        refine List.IsInfix.trans hinf ?_
        rw [← List.append_assoc]
        exact (List.prefix_append _ _).isInfix
      rw [feedLines_cons, processLine_content m now c P hninf]
      by_cases hc : (P ++ c).contains (m.TC_START.headD ' ') = true
      · rw [if_pos hc]
        dsimp only
        have hfree2 : ¬ m.TC_START <:+: ((P ++ c) ++ lineContents rest) := by
          rw [List.append_assoc]
          exact hfree
        obtain ⟨pend, h1, h2⟩ := ih (P ++ c) hbrest hfree2
        refine ⟨pend, h1, ?_⟩
        rw [← List.append_assoc]
        exact h2
      · rw [if_neg hc]
        dsimp only
        have hfree2 : ¬ m.TC_START <:+: ([] ++ lineContents rest) := by
          rw [List.nil_append]
          intro hinf
          apply hfree
          refine List.IsInfix.trans hinf ?_
          refine List.IsInfix.trans (List.suffix_append c (lineContents rest)).isInfix ?_
          exact (List.suffix_append P (c ++ lineContents rest)).isInfix
        obtain ⟨pend, h1, h2⟩ := ih [] hbrest hfree2
        rw [List.nil_append] at h2
        refine ⟨pend, h1, ?_⟩
        rw [outTexts_append, outTexts_textChunkOut, List.append_assoc, List.append_assoc, h2,
          ← List.append_assoc]

/-! ## Claim C3: delimiter non-leak for marker-free streams -/

/-- C3: for every protocol-conformant upstream stream (a body of
non-`[DONE]` lines, optionally terminated by the `[DONE]` sentinel)
whose concatenated delta contents contain no occurrence of the
`TC_START` marker, the concatenation of all downstream content deltas,
including those of the terminal flush, equals the concatenation of the
upstream delta contents. -/
theorem claim_C3 (d : Fin 6) (s1 s2 : Fin 20) (now : Nat) (body : List SSELine)
    (hbody : ∀ l ∈ body, notDone l = true)
    (hfree : ¬ (generateMarkers d s1 s2).TC_START <:+: lineContents body) :
    outTexts (runStream (generateMarkers d s1 s2) now body) = lineContents body ∧
    outTexts (runStream (generateMarkers d s1 s2) now (body ++ [SSELine.done])) =
      lineContents body := by
  have hfree2 : ¬ (generateMarkers d s1 s2).TC_START <:+: ([] ++ lineContents body) := by
    rw [List.nil_append]
    exact hfree
  obtain ⟨pend, h1, h2⟩ := feedLines_noTC now body [] hbody hfree2
  rw [List.nil_append] at h2
  have hdone : feedLines (generateMarkers d s1 s2) now ⟨[], false, pend, false⟩ [SSELine.done] =
      ((⟨[], false, [], true⟩ : StreamState),
       terminalOut (generateMarkers d s1 s2) now ⟨[], false, pend, false⟩) := by
    rw [feedLines_cons]
    dsimp only [processLine, feedLines]
    rw [List.append_nil]
  constructor
  · unfold runStream initStreamState
    dsimp only
    rw [outTexts_append, h1]
    unfold flushOut
    dsimp only
    rw [if_neg Bool.false_ne_true]
    rw [outTexts_terminalOut_nobuf rfl]
    exact h2
  · unfold runStream initStreamState
    dsimp only
    rw [feedLines_append]
    dsimp only
    rw [h1, hdone]
    dsimp only
    unfold flushOut
    dsimp only
    rw [if_pos rfl, List.append_nil, outTexts_append, outTexts_terminalOut_nobuf rfl]
    exact h2

theorem claim_C3_witness :
    outTexts (runStream (generateMarkers 0 0 0) 7
        [SSELine.content "Hello ".data, SSELine.blank, SSELine.content "world".data]) =
      lineContents [SSELine.content "Hello ".data, SSELine.blank,
        SSELine.content "world".data] ∧
    outTexts (runStream (generateMarkers 0 0 0) 7
        ([SSELine.content "Hello ".data, SSELine.blank, SSELine.content "world".data] ++
          [SSELine.done])) =
      lineContents [SSELine.content "Hello ".data, SSELine.blank,
        SSELine.content "world".data] :=
  claim_C3 0 0 0 7
    [SSELine.content "Hello ".data, SSELine.blank, SSELine.content "world".data]
    (by decide) (by decide)

/-! ## Locating the TC_START marker inside a prefixed envelope -/

theorem prefix_take_iff {p l : Str} {n : Nat} :
    p <+: l.take n ↔ p <+: l ∧ p.length ≤ n := by
  constructor
  · intro h
    refine ⟨h.trans (List.take_prefix n l), ?_⟩
    have hl := h.length_le
    rw [List.length_take] at hl
    omega
  · rintro ⟨h, hn⟩
    rw [List.prefix_iff_eq_take] at h ⊢
    rw [List.take_take, Nat.min_eq_left hn]
    exact h

theorem glyph_ne_openC : ∀ (d : Fin 6) (s : Fin 20),
    suffixGlyph s ≠ (delimRow d).openC := by decide

theorem arrow_ne_openC : ∀ d : Fin 6, 'ᐅ' ≠ (delimRow d).openC := by decide

theorem arrow_notin_rest : ∀ (d : Fin 6) (s : Fin 20),
    ('ᐅ' ∉ [(delimRow d).midC, '▸']) ∧ ('ᐅ' ∉ ['◂', (delimRow d).midC]) ∧
    ('ᐅ' ∉ [(delimRow d).midC, '▹']) ∧ ('ᐅ' ∉ ['◃', (delimRow d).midC]) ∧
    ('ᐅ' ∉ ['ᐊ', suffixGlyph s, (delimRow d).closeC]) ∧ 'ᐅ' ≠ '\n' := by decide

theorem arrow_mem_markerChars (d : Fin 6) (s1 s2 : Fin 20) :
    'ᐅ' ∈ markerChars (generateMarkers d s1 s2) := by
  unfold markerChars
  rw [gm_TC_START]
  simp

theorem arrow_ne_fixed : ∀ (d : Fin 6) (s : Fin 20),
    'ᐅ' ≠ (delimRow d).midC ∧ 'ᐅ' ≠ (delimRow d).closeC ∧ 'ᐅ' ≠ suffixGlyph s ∧
    'ᐅ' ≠ '▸' ∧ 'ᐅ' ≠ '◂' ∧ 'ᐅ' ≠ '▹' ∧ 'ᐅ' ≠ '◃' ∧ 'ᐅ' ≠ 'ᐊ' ∧ 'ᐅ' ≠ '\n' := by decide

theorem tcstart_unique_occurrence (d : Fin 6) (s1 s2 : Fin 20) (P name args : Str)
    (hP : ¬ (generateMarkers d s1 s2).TC_START <:+: P)
    (hname : ∀ c ∈ name, inMarkerChars (generateMarkers d s1 s2) c = false)
    (hargs : ∀ c ∈ args, inMarkerChars (generateMarkers d s1 s2) c = false) :
    ∀ j, (generateMarkers d s1 s2).TC_START <+:
        (P ++ encodeEnvelope (generateMarkers d s1 s2) name args).drop j ↔ j = P.length := by
  obtain ⟨T, hE⟩ : ∃ T, encodeEnvelope (generateMarkers d s1 s2) name args =
      (delimRow d).openC :: suffixGlyph s1 :: 'ᐅ' :: T := ⟨_, rfl⟩
  have hvT : 'ᐅ' ∉ T := by
    intro hmem
    have hdrop : 'ᐅ' ∈ (encodeEnvelope (generateMarkers d s1 s2) name args).drop 3 := by
      rw [hE]
      exact hmem
    have hn : 'ᐅ' ∉ name :=
      fun h => notin_markerChars (hname _ h) (arrow_mem_markerChars d s1 s2) rfl
    have ha : 'ᐅ' ∉ args :=
      fun h => notin_markerChars (hargs _ h) (arrow_mem_markerChars d s1 s2) rfl
    obtain ⟨f1, f2, f3, f4, f5, f6, f7, f8, f9⟩ := arrow_ne_fixed d s1
    unfold encodeEnvelope at hdrop
    rw [gm_TC_START, gm_NAME_START, gm_NAME_END, gm_ARGS_START, gm_ARGS_END,
      gm_TC_END] at hdrop
    simp [f1, f2, f3, f4, f5, f6, f7, f8, f9, hn, ha] at hdrop
  intro j
  constructor
  · intro h
    rcases lt_trichotomy j P.length with hj | hj | hj
    · rw [List.drop_append_of_le_length (le_of_lt hj)] at h
      by_cases hj3 : j + 3 ≤ P.length
      · have hlen3 : (generateMarkers d s1 s2).TC_START.length ≤ (P.drop j).length := by
          rw [gm_TC_START, List.length_drop]
          simp only [List.length_cons, List.length_nil]
          omega
        have hpre := (List.isPrefix_append_of_length hlen3).mp h
        exact absurd (List.IsInfix.trans hpre.isInfix (List.drop_suffix j P).isInfix) hP
      · rcases hpd : P.drop j with _ | ⟨x, _ | ⟨y, _ | ⟨z, pdt⟩⟩⟩
        · have hl := congrArg List.length hpd
          rw [List.length_drop] at hl
          simp only [List.length_nil] at hl
          omega
        · rw [hpd, gm_TC_START, hE, List.singleton_append, List.cons_prefix_cons,
            List.cons_prefix_cons] at h
          exact absurd h.2.1 (glyph_ne_openC d s1)
        · rw [hpd, gm_TC_START, hE, List.cons_append, List.singleton_append,
            List.cons_prefix_cons, List.cons_prefix_cons, List.cons_prefix_cons] at h
          exact absurd h.2.2.1 (arrow_ne_openC d)
        · have hl := congrArg List.length hpd
          rw [List.length_drop] at hl
          simp only [List.length_cons] at hl
          omega
    · exact hj
    · rw [List.drop_append_eq_append_drop,
        List.drop_eq_nil_of_le (le_of_lt hj), List.nil_append] at h
      obtain ⟨k, hk⟩ : ∃ k, j - P.length = k + 1 := ⟨j - P.length - 1, by omega⟩
      rw [hk] at h
      have h2 := List.IsPrefix.drop h 2
      rw [List.drop_drop, gm_TC_START] at h2
      have harrow : ['ᐅ'] <+:
          (encodeEnvelope (generateMarkers d s1 s2) name args).drop (k + 1 + 2) := h2
      rw [hE] at harrow
      have hn23 : k + 1 + 2 = k + 3 := by omega
      rw [hn23] at harrow
      have hred : ((delimRow d).openC :: suffixGlyph s1 :: 'ᐅ' :: T).drop (k + 3) =
          T.drop k := rfl
      rw [hred] at harrow
      obtain ⟨tl, htl⟩ := harrow
      have hmemdrop : 'ᐅ' ∈ T.drop k := by
        rw [← htl]
        exact List.mem_cons_self _ _
      exact absurd (List.mem_of_mem_drop hmemdrop) hvT
  · intro hj
    subst hj
    rw [List.drop_left, hE]
    rw [gm_TC_START]
    rw [List.cons_prefix_cons, List.cons_prefix_cons, List.cons_prefix_cons]
    exact ⟨rfl, rfl, rfl, List.nil_prefix⟩

theorem idxOf?_window {pat S : Str} {L : Nat} (hpat : pat ≠ [])
    (hocc : ∀ j, pat <+: S.drop j ↔ j = L) (e t : Nat) (ht : t ≤ S.length) :
    idxOf? pat ((S.take t).drop e) =
      if e ≤ L ∧ L + pat.length ≤ t then some (L - e) else none := by
  have hpl : 0 < pat.length := List.length_pos.mpr hpat
  have hkey : ∀ k, pat <+: ((S.take t).drop e).drop k ↔ (e + k = L ∧ L + pat.length ≤ t) := by
    intro k
    rw [List.drop_drop, List.drop_take, prefix_take_iff, hocc]
    constructor
    · rintro ⟨hj, hl⟩
      constructor
      · omega
      · omega
    · rintro ⟨hj, hl⟩
      constructor
      · omega
      · omega
  by_cases hc : e ≤ L ∧ L + pat.length ≤ t
  · rw [if_pos hc]
    rw [idxOf?_eq_some_iff]
    constructor
    · exact (hkey (L - e)).mpr ⟨by omega, hc.2⟩
    · intro i hi hpre
      have hik := (hkey i).mp hpre
      omega
  · rw [if_neg hc]
    rw [idxOf?_eq_none_iff]
    intro hinf
    obtain ⟨pre, post, hw⟩ := hinf
    have hpre : pat <+: ((S.take t).drop e).drop pre.length := by
      rw [← hw, List.append_assoc, List.drop_left]
      exact ⟨post, rfl⟩
    have hik := (hkey pre.length).mp hpre
    exact hc ⟨by omega, hik.2⟩

theorem feedLines_buffering (m : Markers) (now : Nat) :
    ∀ (body : List SSELine) (C : Str),
      (∀ l ∈ body, notDone l = true) →
      feedLines m now ⟨C, true, [], false⟩ body =
        ((⟨C ++ lineContents body, true, [], false⟩ : StreamState), []) := by
  intro body
  induction body with
  | nil =>
    intro C hb
    show ((⟨C, true, [], false⟩ : StreamState), ([] : List OutChunk)) = _
    rw [show lineContents [] = [] from rfl, List.append_nil]
  | cons l rest ih =>
    intro C hb
    have hbrest : ∀ x ∈ rest, notDone x = true :=
      fun x hx => hb x (List.mem_cons_of_mem _ hx)
    match l with
    | .done => exact absurd (hb .done (List.mem_cons_self _ _)) (by decide)
    | .blank =>
      rw [feedLines_cons]
      have hp : processLine m now SSELine.blank ⟨C, true, [], false⟩ =
          ((⟨C, true, [], false⟩ : StreamState), []) := rfl
      rw [hp]
      dsimp only
      rw [ih C hbrest, lineContents_blank]
      rfl
    | .other =>
      rw [feedLines_cons]
      have hp : processLine m now SSELine.other ⟨C, true, [], false⟩ =
          ((⟨C, true, [], false⟩ : StreamState), []) := rfl
      rw [hp]
      dsimp only
      rw [ih C hbrest, lineContents_other]
      rfl
    | .content c =>
      rw [feedLines_cons]
      have hp : processLine m now (SSELine.content c) ⟨C, true, [], false⟩ =
          ((⟨C ++ c, true, [], false⟩ : StreamState), []) := rfl
      rw [hp]
      dsimp only
      rw [ih (C ++ c) hbrest, lineContents_content, List.append_assoc]
      rfl

theorem feedLines_phaseA {m : Markers} (now : Nat) {P E : Str} {tcs0 : Char} {tcsr : Str}
    (hTC : m.TC_START = tcs0 :: tcsr)
    (hocc : ∀ j, m.TC_START <+: (P ++ E).drop j ↔ j = P.length) :
    ∀ (body : List SSELine), (∀ l ∈ body, notDone l = true) →
    ∀ (e t : Nat),
      e ≤ P.length → e ≤ t → t < P.length + m.TC_START.length → t ≤ (P ++ E).length →
      lineContents body = (P ++ E).drop t →
      ∃ ts : List Str,
        feedLines m now ⟨[], false, ((P ++ E).take t).drop e, false⟩ body =
          ((⟨E, true, [], false⟩ : StreamState), ts.map OutChunk.text) ∧
        ts.flatten = P.drop e := by
  have hTCE : m.TC_START <+: E := by
    have h := (hocc P.length).mpr rfl
    rwa [List.drop_left] at h
  obtain ⟨E2, hEcons⟩ : ∃ E2, E = tcs0 :: E2 := by
    obtain ⟨u, hu⟩ := hTCE
    rw [hTC] at hu
    exact ⟨tcsr ++ u, by rw [← hu]; rfl⟩
  have hElen : m.TC_START.length ≤ E.length := hTCE.length_le
  have hTClen : 0 < m.TC_START.length := by rw [hTC]; simp
  intro body
  induction body with
  | nil =>
    intro hb e t he het htlt htS hsplit
    exfalso
    have hnil : (P ++ E).drop t = [] := by rw [← hsplit]; rfl
    have hlen := List.drop_eq_nil_iff.mp hnil
    rw [List.length_append] at hlen
    omega
  | cons l rest ih =>
    intro hb e t he het htlt htS hsplit
    have hbrest : ∀ x ∈ rest, notDone x = true :=
      fun x hx => hb x (List.mem_cons_of_mem _ hx)
    match l with
    | .done => exact absurd (hb .done (List.mem_cons_self _ _)) (by decide)
    | .blank =>
      rw [lineContents_blank] at hsplit
      obtain ⟨ts, h1, h2⟩ := ih hbrest e t he het htlt htS hsplit
      refine ⟨ts, ?_, h2⟩
      rw [feedLines_cons]
      have hp : processLine m now SSELine.blank ⟨[], false, ((P ++ E).take t).drop e, false⟩ =
          ((⟨[], false, ((P ++ E).take t).drop e, false⟩ : StreamState), []) := rfl
      rw [hp, h1]
      rfl
    | .other =>
      rw [lineContents_other] at hsplit
      obtain ⟨ts, h1, h2⟩ := ih hbrest e t he het htlt htS hsplit
      refine ⟨ts, ?_, h2⟩
      rw [feedLines_cons]
      have hp : processLine m now SSELine.other ⟨[], false, ((P ++ E).take t).drop e, false⟩ =
          ((⟨[], false, ((P ++ E).take t).drop e, false⟩ : StreamState), []) := rfl
      rw [hp, h1]
      rfl
    | .content c =>
      rw [lineContents_content] at hsplit
      have hlenS := congrArg List.length hsplit
      rw [List.length_append, List.length_drop, List.length_append] at hlenS
      have ht2S : t + c.length ≤ (P ++ E).length := by
        rw [List.length_append]
        omega
      have hrest : lineContents rest = (P ++ E).drop (t + c.length) := by
        have h3 : ((P ++ E).drop t).drop c.length = (P ++ E).drop (t + c.length) := by
          rw [List.drop_drop]
        rw [← hsplit, List.drop_left] at h3
        exact h3
      have hcomb : ((P ++ E).take (t + c.length)).drop e =
          ((P ++ E).take t).drop e ++ c := by
        rw [List.take_add]
        have hc2 : ((P ++ E).drop t).take c.length = c := by
          rw [← hsplit, List.take_left]
        rw [hc2]
        rw [List.drop_append_of_le_length]
        rw [List.length_take]
        omega
      have hwin := idxOf?_window (by rw [hTC]; exact List.cons_ne_nil _ _) hocc
        e (t + c.length) ht2S
      rw [hcomb] at hwin
      rw [feedLines_cons]
      have hproc0 : processLine m now (SSELine.content c)
          ⟨[], false, ((P ++ E).take t).drop e, false⟩ =
          (match idxOf? m.TC_START (((P ++ E).take t).drop e ++ c) with
           | some k =>
             ((⟨(((P ++ E).take t).drop e ++ c).drop k, true, [], false⟩ : StreamState),
              textChunkOut ((((P ++ E).take t).drop e ++ c).take k))
           | none =>
             if (((P ++ E).take t).drop e ++ c).contains (m.TC_START.headD ' ') then
               ((⟨[], false, ((P ++ E).take t).drop e ++ c, false⟩ : StreamState),
                ([] : List OutChunk))
             else (⟨[], false, [], false⟩,
                   textChunkOut (((P ++ E).take t).drop e ++ c))) := rfl
      rw [hproc0, hwin]
      by_cases hcross : e ≤ P.length ∧ P.length + m.TC_START.length ≤ t + c.length
      · rw [if_pos hcross]
        dsimp only
        have htake : (((P ++ E).take t).drop e ++ c).take (P.length - e) = P.drop e := by
          rw [← hcomb, List.drop_take, List.take_take, Nat.min_eq_left (by omega),
            List.drop_append_of_le_length he, List.take_append_eq_append_take,
            List.length_drop, Nat.sub_self, List.take_zero, List.append_nil,
            show P.length - e = (P.drop e).length from (List.length_drop _ _).symm,
            List.take_length]
        have hdrop : (((P ++ E).take t).drop e ++ c).drop (P.length - e) =
            E.take (t + c.length - P.length) := by
          rw [← hcomb, List.drop_drop, show e + (P.length - e) = P.length from by omega,
            List.drop_take, List.drop_left]
        rw [htake, hdrop]
        rw [feedLines_buffering m now rest _ hbrest]
        have hfull : E.take (t + c.length - P.length) ++ lineContents rest = E := by
          rw [hrest]
          have hd : (P ++ E).drop (t + c.length) = E.drop (t + c.length - P.length) := by
            rw [List.drop_append_eq_append_drop, List.drop_eq_nil_of_le (by omega),
              List.nil_append]
          rw [hd, List.take_append_drop]
        rw [hfull]
        by_cases hpe : P.drop e = []
        · refine ⟨[], ?_, by rw [hpe]; rfl⟩
          rw [show textChunkOut (P.drop e) = ([] : List OutChunk) from by
            unfold textChunkOut; rw [if_pos hpe]]
          rfl
        · refine ⟨[P.drop e], ?_, by simp⟩
          rw [show textChunkOut (P.drop e) = [OutChunk.text (P.drop e)] from by
            unfold textChunkOut; rw [if_neg hpe]]
          rfl
      · rw [if_neg hcross]
        dsimp only
        by_cases hcont :
            ((((P ++ E).take t).drop e ++ c).contains (m.TC_START.headD ' ')) = true
        · rw [if_pos hcont]
          dsimp only
          have ht2lt : t + c.length < P.length + m.TC_START.length := by
            rcases Nat.lt_or_ge (t + c.length) (P.length + m.TC_START.length) with h | h
            · exact h
            · exact absurd ⟨he, h⟩ hcross
          obtain ⟨ts, h1, h2⟩ := ih hbrest e (t + c.length) he (by omega) ht2lt ht2S hrest
          refine ⟨ts, ?_, h2⟩
          rw [← hcomb, h1]
          rfl
        · rw [if_neg hcont]
          dsimp only
          have ht2P : t + c.length ≤ P.length := by
            by_contra hgt
            push_neg at hgt
            have hmem : tcs0 ∈ ((P ++ E).take (t + c.length)).drop e := by
              have htk : (P ++ E).take (t + c.length) =
                  P ++ E.take (t + c.length - P.length) := by
                rw [List.take_append_eq_append_take, List.take_of_length_le (by omega)]
              rw [htk, List.drop_append_of_le_length he]
              refine List.mem_append_of_mem_right _ ?_
              rw [hEcons]
              obtain ⟨n, hn⟩ : ∃ n, t + c.length - P.length = n + 1 :=
                ⟨t + c.length - P.length - 1, by omega⟩
              rw [hn]
              exact List.mem_cons_self _ _
            rw [hcomb] at hmem
            have helem := List.elem_eq_true_of_mem hmem
            rw [hTC] at hcont
            exact hcont helem
          have hnil : ((P ++ E).take (t + c.length)).drop (t + c.length) = [] :=
            List.drop_eq_nil_of_le (List.length_take_le _ _)
          obtain ⟨ts, h1, h2⟩ := ih hbrest (t + c.length) (t + c.length) ht2P (le_refl _)
            (by omega) ht2S hrest
          rw [hnil] at h1
          have hcombP : ((P ++ E).take t).drop e ++ c = (P.take (t + c.length)).drop e := by
            rw [← hcomb]
            have htP : (P ++ E).take (t + c.length) = P.take (t + c.length) := by
              rw [List.take_append_eq_append_take,
                show t + c.length - P.length = 0 from by omega, List.take_zero,
                List.append_nil]
            rw [htP]
          have hjoin : (P.take (t + c.length)).drop e ++ P.drop (t + c.length) =
              P.drop e := by
            have hsplitP : P.drop e =
                (P.take (t + c.length) ++ P.drop (t + c.length)).drop e := by
              rw [List.take_append_drop]
            rw [hsplitP, List.drop_append_of_le_length]
            rw [List.length_take]
            omega
          by_cases hce : ((P ++ E).take t).drop e ++ c = []
          · refine ⟨ts, ?_, ?_⟩
            · rw [hce]
              rw [show textChunkOut [] = ([] : List OutChunk) from rfl]
              rw [h1]
              rfl
            · have h0 : (P.take (t + c.length)).drop e = [] := by
                rw [← hcombP]
                exact hce
              have hl0 := congrArg List.length h0
              rw [List.length_drop, List.length_take, List.length_nil] at hl0
              rw [show e = t + c.length from by omega]
              exact h2
          · refine ⟨(((P ++ E).take t).drop e ++ c) :: ts, ?_, ?_⟩
            · rw [show textChunkOut (((P ++ E).take t).drop e ++ c) =
                  [OutChunk.text (((P ++ E).take t).drop e ++ c)] from by
                unfold textChunkOut; rw [if_neg hce]]
              rw [h1]
              rfl
            · rw [List.flatten_cons, h2, hcombP, hjoin]

/-! ## Claim C2: the streaming round trip for one encoded envelope -/

/-- C2 (amended): for every protocol-conformant upstream stream whose
concatenated delta contents are `PREFIX` followed by exactly one encoded
envelope (with nothing after it), where `PREFIX` contains no `TC_START`
occurrence, the name and arguments are free of marker characters and
stable under trimming, and the arguments are valid JSON, the downstream
client observes content deltas concatenating to `PREFIX`, then one
`tool_calls` delta at index 0 carrying that function name and those
arguments, then a `tool_calls` finish chunk, then the `[DONE]`
sentinel, in that order.  The validity hypothesis on the arguments is
necessary: see the counterexample. -/
theorem claim_C2 (d : Fin 6) (s1 s2 : Fin 20) (now : Nat) (PREFIX name args : Str)
    (body : List SSELine)
    (hbody : ∀ l ∈ body, notDone l = true)
    (hsplit : lineContents body =
      PREFIX ++ encodeEnvelope (generateMarkers d s1 s2) name args)
    (hP : ¬ (generateMarkers d s1 s2).TC_START <:+: PREFIX)
    (hname : ∀ c ∈ name, inMarkerChars (generateMarkers d s1 s2) c = false)
    (hargs : ∀ c ∈ args, inMarkerChars (generateMarkers d s1 s2) c = false)
    (htn : trimStr name = name) (hta : trimStr args = args)
    (hjson : jsonValid args = true) :
    ∃ ts : List Str,
      runStream (generateMarkers d s1 s2) now (body ++ [SSELine.done]) =
        ts.map OutChunk.text ++
        [OutChunk.toolDelta 0
          { id := callId now 0, type := "function".data,
            function := { name := name, arguments := args } },
         OutChunk.finish "tool_calls".data, OutChunk.done] ∧
      ts.flatten = PREFIX := by
  have hocc := tcstart_unique_occurrence d s1 s2 PREFIX name args hP hname hargs
  have hsplit0 : lineContents body =
      (PREFIX ++ encodeEnvelope (generateMarkers d s1 s2) name args).drop 0 := by
    rw [List.drop_zero]
    exact hsplit
  obtain ⟨ts, h1, h2⟩ := feedLines_phaseA now (gm_TC_START d s1 s2) hocc body hbody 0 0
    (Nat.zero_le _) (Nat.zero_le _) (by rw [gm_TC_START]; simp) (Nat.zero_le _) hsplit0
  simp only [List.take_zero, List.drop_zero] at h1
  rw [List.drop_zero] at h2
  have hEne : encodeEnvelope (generateMarkers d s1 s2) name args ≠ [] := by
    unfold encodeEnvelope
    rw [gm_TC_START]
    simp
  have hEparse := parse_one_envelope now (gm_TC_START d s1 s2) (gm_NAME_START d s1 s2)
    (midC_not_ws d) (gm_NAME_END d s1 s2) (gm_ARGS_START d s1 s2) (midC_not_ws d)
    (gm_TC_END d s1 s2) tcEndHead_not_ws (gm_ARGS_END d s1 s2) [] name args []
    (fun c hc => absurd hc (List.not_mem_nil c))
    (fun c hc => absurd hc (List.not_mem_nil c))
    (fun c hc => notin_markerChars (hname c hc) (neHead_mem_markerChars (gm_NAME_END d s1 s2)))
    (fun c hc => notin_markerChars (hargs c hc) (aeHead_mem_markerChars (gm_ARGS_END d s1 s2)))
  rw [List.nil_append, List.append_nil, hta, htn, if_pos hjson,
    show trimStr ([] ++ []) = ([] : Str) from rfl] at hEparse
  have hterm : terminalOut (generateMarkers d s1 s2) now ⟨encodeEnvelope
      (generateMarkers d s1 s2) name args, true, [], false⟩ =
      [OutChunk.toolDelta 0
        { id := callId now 0, type := "function".data,
          function := { name := name, arguments := args } },
       OutChunk.finish "tool_calls".data, OutChunk.done] := by
    unfold terminalOut
    dsimp only
    rw [if_pos hEne]
    rw [hEparse]
    dsimp only
    rw [if_pos (List.cons_ne_nil _ _)]
    rfl
  refine ⟨ts, ?_, h2⟩
  unfold runStream initStreamState
  dsimp only
  rw [feedLines_append]
  rw [h1]
  dsimp only
  have hdone : feedLines (generateMarkers d s1 s2) now
      ⟨encodeEnvelope (generateMarkers d s1 s2) name args, true, [], false⟩ [SSELine.done] =
      ((⟨[], true, [], true⟩ : StreamState),
       terminalOut (generateMarkers d s1 s2) now
         ⟨encodeEnvelope (generateMarkers d s1 s2) name args, true, [], false⟩) := by
    rw [feedLines_cons]
    dsimp only [processLine, feedLines]
    rw [List.append_nil]
  rw [hdone]
  dsimp only
  unfold flushOut
  dsimp only
  rw [if_pos rfl, List.append_nil, hterm]

/-- C2 counterexample to the unconditional claim: the upstream text is
`"Hi"` followed by one encoded envelope (a tool call whose arguments are
the invalid JSON blob) and nothing else, yet the downstream stream
carries no `tool_calls` delta and finishes with `stop`. -/
theorem claim_C2_counterexample :
    runStream (generateMarkers 0 0 0) 7
      [SSELine.content ("Hi".data ++
        encodeEnvelope (generateMarkers 0 0 0) "f".data "\x7boops\x7d".data),
       SSELine.done] =
      [OutChunk.text "Hi".data, OutChunk.finish "stop".data, OutChunk.done] := by decide

theorem claim_C2_witness :
    ∃ ts : List Str,
      runStream (generateMarkers 0 0 0) 7
        ([SSELine.content ("Hi ".data ++
           encodeEnvelope (generateMarkers 0 0 0) "add".data "\x7b\"a\":1\x7d".data)] ++
         [SSELine.done]) =
        ts.map OutChunk.text ++
        [OutChunk.toolDelta 0
          { id := callId 7 0, type := "function".data,
            function := { name := "add".data, arguments := "\x7b\"a\":1\x7d".data } },
         OutChunk.finish "tool_calls".data, OutChunk.done] ∧
      ts.flatten = "Hi ".data :=
  claim_C2 0 0 0 7 "Hi ".data "add".data "\x7b\"a\":1\x7d".data
    [SSELine.content ("Hi ".data ++
      encodeEnvelope (generateMarkers 0 0 0) "add".data "\x7b\"a\":1\x7d".data)]
    (by decide) (by decide) (by decide) (by decide) (by decide) (by decide) (by decide)
    (by decide)
